import Mathlib

/-!
# ble-scanner: the sighting deduplication engine of `main.go`

A shallow embedding of `advHandler`, `handleData`, `updateData`, `chkErr` and
`clean` from `main.go`, together with the parts of the Go standard library the
handler's decision depends on (`time.Time.Sub`, `time.Duration.Minutes`, the
`float64` arithmetic inside `Minutes`) and the two SQL statements sent to the
`beacon` table.

Modelling conventions

* A `time.Time` obtained from `time.Now()` is represented by its clock reading
  in nanoseconds (an `Int`); `Sub` is the saturating difference of the library.
* A `float64` is represented by the rational number it denotes; every
  operation rounds its exact result to the nearest value with a 53-bit
  significand, ties to even (`roundFloat64`). The exponent range is not
  bounded: the values that occur here lie between `1 / (6 * 10^10)` and `2^63`
  in magnitude, far from overflow and from the subnormal range.
* The global `devices` map is an association list; `mapLookup` is `devices[k]`
  with the comma-ok result and `mapStore` is `devices[k] = v`.
* The process state carries a ghost field `emitted`, the list of calls made to
  the persistence functions `handleData` (an Insert) and `updateData` (an
  Update), each recorded with the values bound to the SQL statement.
* Output written with `log` and `fmt` is not modelled.
* Concurrent calls of `advHandler` are goroutines that take atomic steps in an
  order chosen by a schedule; `mutex` is a flag that `mutex.Lock()` can only
  set while it is clear. A goroutine has read the clock and built its record
  before it asks for the mutex, as in the source.
-/

namespace BleScanner

/-! ## `time` -/

/-- Constant `time.Minute`, in nanoseconds. -/
def Minute : Int := 60 * 1000000000

/-- Smallest `time.Duration` (`-1 << 63`). -/
def minDuration : Int := -(2 ^ 63)

/-- Largest `time.Duration` (`1<<63 - 1`). -/
def maxDuration : Int := 2 ^ 63 - 1

/-- Method `t.Sub(u)` of `time.Time` for two readings of the clock: the
duration `t - u`, replaced by the largest or smallest duration when it is out
of range. -/
def Sub (t u : Int) : Int :=
  let d := t - u
  if maxDuration < d then maxDuration else if d < minDuration then minDuration else d

/-- Nearest integer to a rational, ties going to the even neighbour. -/
def roundHalfEven (q : ℚ) : ℤ :=
  let f := ⌊q⌋
  let r := q - f
  if r < 1 / 2 then f else if 1 / 2 < r then f + 1 else if f % 2 = 0 then f else f + 1

/-- Rounding of an exact result to `float64`: the nearest rational with a
53-bit significand, ties to even. -/
def roundFloat64 (q : ℚ) : ℚ :=
  if q = 0 then 0 else
    let ulp : ℚ := 2 ^ (Int.log 2 |q| - 52)
    roundHalfEven (q / ulp) * ulp

/-- Method `d.Minutes()` of `time.Duration`:
`min := d / Minute; nsec := d % Minute;
return float64(min) + float64(nsec)/(60*1e9)`,
with Go's truncating integer division and `float64` arithmetic. -/
def Minutes (d : Int) : ℚ :=
  let min := Int.tdiv d Minute
  let nsec := Int.tmod d Minute
  roundFloat64 (roundFloat64 min + roundFloat64 (roundFloat64 nsec / 60000000000))

/-! ## Data model -/

/-- Struct `Device` of `main.go`. -/
structure Device where
  Id : Int
  Address : String
  Detected : Int
  Name : String
  RSSI : Int
deriving DecidableEq, Repr

/-- The part of a `ble.Advertisement` that `advHandler` reads. -/
structure Advertisement where
  Addr : String
  LocalName : String
  RSSI : Int
  Connectable : Bool
deriving DecidableEq, Repr

/-- Type `map[string]Device` of the global `devices`. -/
abbrev DeviceMap := List (String × Device)

/-- Map read `val, ok := m[k]`. -/
def mapLookup : DeviceMap → String → Option Device
  | [], _ => none
  | (k', v) :: rest, k => if k' = k then some v else mapLookup rest k

/-- Map write `m[k] = v`. -/
def mapStore : DeviceMap → String → Device → DeviceMap
  | [], k, v => [(k, v)]
  | (k', v') :: rest, k, v =>
    if k' = k then (k, v) :: rest else (k', v') :: mapStore rest k v

/-- Keys of a map. -/
def mapKeys (m : DeviceMap) : List String := m.map Prod.fst

/-- A call made to the persistence functions, with the values bound to the
statement: `Insert` is `handleData`
(`INSERT INTO beacon(detected, address, rssi, name) values(?,?,?,?)`) and
`Update` is `updateData` (`UPDATE beacon set name=? WHERE address=?`). -/
inductive Command where
  | Insert (detected : Int) (address : String) (rssi : Int) (name : String)
  | Update (name : String) (address : String)
deriving DecidableEq, Repr

/-- Whether a command is an Insert. -/
def Command.isInsert : Command → Bool
  | .Insert _ _ _ _ => true
  | .Update _ _ => false

/-- Modelled from the spec: a row of the relational table
`beacon(id, detected, address, rssi, name)`. The declaration of the table is
not among the sources; `main.go` only names these columns in its three
statements. -/
structure Row where
  id : Int
  detected : Int
  address : String
  rssi : Int
  name : String
deriving DecidableEq, Repr

/-- Process state: the global `devices`, the rows of table `beacon` behind the
global `db`, and the ghost list of emitted commands. -/
structure World where
  devices : DeviceMap
  beacon : List Row
  emitted : List Command
deriving DecidableEq, Repr

/-- Value of `errors.Cause(err)` as `chkErr` distinguishes it. -/
inductive Cause where
  | nil
  | DeadlineExceeded
  | Canceled
  | other
deriving DecidableEq, Repr

/-- What the database does with the one statement a call may send: the error
of `db.Prepare`, the error of `stmt.Exec`, and the row id the store assigns to
an inserted row. -/
structure Driver where
  prepare : Cause
  exec : Cause
  lastInsertId : Int
deriving DecidableEq, Repr

/-- A database that reports no error. -/
def Driver.healthy (id : Int) : Driver := ⟨Cause.nil, Cause.nil, id⟩

/-- How a piece of the program ends: it returns a value, or the process is
ended by `log.Fatalf` (`os.Exit(1)`), or by a run-time panic. -/
inductive Outcome (α : Type) where
  | returned (w : World) (r : α)
  | exited (w : World) (code : Nat)
  | panicked (w : World)
deriving DecidableEq, Repr

/-- State in which the piece of program ended. -/
def Outcome.world {α : Type} : Outcome α → World
  | .returned w _ => w
  | .exited w _ => w
  | .panicked w => w

/-- Whether the call came back to its caller. -/
def Outcome.isReturned {α : Type} : Outcome α → Bool
  | .returned _ _ => true
  | _ => false

/-- Whether the process was ended. -/
def Outcome.isTerminated {α : Type} : Outcome α → Bool
  | .returned _ _ => false
  | _ => true

/-! ## Functions of `main.go` -/

/-- Function `chkErr`: nothing for a nil error, a message for
`context.DeadlineExceeded` and `context.Canceled`, and `log.Fatalf`, which
ends the process with status 1, for every other error. -/
def chkErr (err : Cause) (w : World) : Outcome Unit :=
  match err with
  | .nil => .returned w ()
  | .DeadlineExceeded => .returned w ()
  | .Canceled => .returned w ()
  | .other => .exited w 1

/-- Statement `INSERT INTO beacon(detected, address, rssi, name)
values(?,?,?,?)`: one new row, its id chosen by the store. -/
def sqlInsert (rows : List Row) (id detected : Int) (address : String) (rssi : Int)
    (name : String) : List Row :=
  rows ++ [{ id := id, detected := detected, address := address, rssi := rssi, name := name }]

/-- Statement `UPDATE beacon set name=? WHERE address=?`: every row whose
address equals the parameter gets the new name. -/
def sqlUpdate (rows : List Row) (name address : String) : List Row :=
  rows.map fun r => if r.address = address then { r with name := name } else r

/-- Function `handleData`. `db.Prepare` and `stmt.Exec` return a nil statement
or result together with a non-nil error, so going on after an error that
`chkErr` lets pass dereferences nil. -/
def handleData (g : Driver) (w : World) (_bleAddr : String) (device : Device) : Outcome Unit :=
  let w0 : World :=
    { w with emitted := (w.emitted ++
        [Command.Insert device.Detected device.Address device.RSSI device.Name]) }
  match chkErr g.prepare w0 with
  | .returned w1 _ =>
    if g.prepare ≠ Cause.nil then .panicked w1
    else
      let w2 : World :=
        if g.exec = Cause.nil then
          { w1 with beacon := (sqlInsert w1.beacon g.lastInsertId device.Detected
              device.Address device.RSSI device.Name) }
        else w1
      match chkErr g.exec w2 with
      | .returned w3 _ => if g.exec ≠ Cause.nil then .panicked w3 else .returned w3 ()
      | o => o
  | o => o

/-- Function `updateData`. -/
def updateData (g : Driver) (w : World) (_bleAddr : String) (device : Device) : Outcome Unit :=
  let w0 : World :=
    { w with emitted := w.emitted ++ [Command.Update device.Name device.Address] }
  match chkErr g.prepare w0 with
  | .returned w1 _ =>
    if g.prepare ≠ Cause.nil then .panicked w1
    else
      let w2 : World :=
        if g.exec = Cause.nil then
          { w1 with beacon := sqlUpdate w1.beacon device.Name device.Address }
        else w1
      match chkErr g.exec w2 with
      | .returned w3 _ => if g.exec ≠ Cause.nil then .panicked w3 else .returned w3 ()
      | o => o
  | o => o

/-- Lines 138 to 150 of `advHandler`: the lookup of the address and the
decision; the result is `isInsert`. -/
def decidePhase (g : Driver) (w : World) (bleAddr : String) (device : Device) : Outcome Bool :=
  match mapLookup w.devices bleAddr with
  | some val =>
    let timediff := Minutes (Sub device.Detected val.Detected)
    if timediff < 1 then
      if 0 < device.Name.utf8ByteSize then
        match updateData g w bleAddr device with
        | .returned w1 _ => .returned w1 false
        | .exited w1 c => .exited w1 c
        | .panicked w1 => .panicked w1
      else .returned w false
    else .returned w true
  | none => .returned w true

/-- Line 151 of `advHandler`: `devices[bleAddr] = device`. -/
def storePhase (w : World) (bleAddr : String) (device : Device) : World :=
  { w with devices := mapStore w.devices bleAddr device }

/-- Lines 152 to 154 of `advHandler`. -/
def insertPhase (g : Driver) (w : World) (bleAddr : String) (device : Device)
    (isInsert : Bool) : Outcome Unit :=
  if isInsert then handleData g w bleAddr device else .returned w ()

/-- The section of `advHandler` between `mutex.Lock()` and `mutex.Unlock()`,
for the record `device` built from the advertisement (`bleAddr` is its
address). -/
def ProcessSighting (g : Driver) (w : World) (device : Device) : Outcome Unit :=
  match decidePhase g w device.Address device with
  | .returned w1 isInsert =>
    insertPhase g (storePhase w1 device.Address device) device.Address device isInsert
  | .exited w1 c => .exited w1 c
  | .panicked w1 => .panicked w1

/-- Function `clean`: `strings.TrimFunc` with the negation of
`unicode.IsGraphic`, the table of graphic runes being a parameter. -/
def clean (isGraphic : Char → Bool) (input : String) : String :=
  let notGraphic := fun r => !isGraphic r
  String.mk ((input.toList.dropWhile notGraphic).reverse.dropWhile notGraphic).reverse

/-- The record `advHandler` builds from an advertisement received at clock
reading `now`. -/
def mkDevice (isGraphic : Char → Bool) (a : Advertisement) (now : Int) : Device :=
  { Id := 0, Address := a.Addr, Detected := now, Name := clean isGraphic a.LocalName,
    RSSI := a.RSSI }

/-- Function `advHandler` run with the mutex free. -/
def advHandler (isGraphic : Char → Bool) (g : Driver) (w : World) (a : Advertisement)
    (now : Int) : Outcome Unit :=
  ProcessSighting g w (mkDevice isGraphic a now)

/-- Calls of `ProcessSighting` one after the other, each with the behaviour of
the database during that call; the run stops when the process is ended. -/
def processAll : List (Driver × Device) → World → Outcome Unit
  | [], w => .returned w ()
  | (g, d) :: rest, w =>
    match ProcessSighting g w d with
    | .returned w1 _ => processAll rest w1
    | o => o

/-- The Insert commands of a list of commands. -/
def inserts (cs : List Command) : List Command := cs.filter Command.isInsert


/-- The last record with address `a` in a list of sightings, if there is one. -/
def lastSighting (a : String) : List Device → Option Device
  | [] => none
  | d :: rest =>
    match lastSighting a rest with
    | some e => some e
    | none => if d.Address = a then some d else none


/-! ## Concurrent calls of `advHandler` -/

/-- Where a goroutine running `advHandler` stands, with the value of its local
`isInsert` once set. -/
inductive Pc where
  | start
  | locked
  | decided (isInsert : Bool)
  | stored (isInsert : Bool)
  | unlocking
  | done
deriving DecidableEq, Repr

/-- A goroutine running `advHandler`: the record it built before
`mutex.Lock()`, the behaviour of the database towards its statement, and its
position. -/
structure Goroutine where
  device : Device
  driver : Driver
  pc : Pc
deriving DecidableEq, Repr

/-- One atomic step of a goroutine under the current `mutex` and state:
`mutex.Lock()` (possible only while the mutex is free), lines 138 to 150,
line 151, lines 152 to 154, `mutex.Unlock()`. The result is `none` when the
goroutine is blocked or has finished. -/
def stepGoroutine (m : Bool) (w : World) (t : Goroutine) : Option (Bool × Outcome Goroutine) :=
  match t.pc with
  | .start => if m then none else some (true, .returned w { t with pc := .locked })
  | .locked =>
    match decidePhase t.driver w t.device.Address t.device with
    | .returned w1 b => some (m, .returned w1 { t with pc := .decided b })
    | .exited w1 c => some (m, .exited w1 c)
    | .panicked w1 => some (m, .panicked w1)
  | .decided b =>
    some (m, .returned (storePhase w t.device.Address t.device) { t with pc := .stored b })
  | .stored b =>
    match insertPhase t.driver w t.device.Address t.device b with
    | .returned w1 _ => some (m, .returned w1 { t with pc := .unlocking })
    | .exited w1 c => some (m, .exited w1 c)
    | .panicked w1 => some (m, .panicked w1)
  | .unlocking => some (false, .returned w { t with pc := .done })
  | .done => none

/-- The process with its goroutines: whether `mutex` is held, the state,
whether the process has been ended, the ghost list of what each lookup at line
139 found (`ok`), and the goroutines. -/
structure System where
  mutex : Bool
  world : World
  halted : Bool
  observed : List Bool
  threads : List Goroutine
deriving DecidableEq, Repr

/-- The scheduler lets goroutine `i` take one step; nothing happens when the
process has ended, when there is no such goroutine, or when it cannot move. -/
def System.step (s : System) (i : Nat) : System :=
  if s.halted then s
  else
    match s.threads[i]? with
    | none => s
    | some t =>
      match stepGoroutine s.mutex s.world t with
      | none => s
      | some (m1, .returned w1 t1) =>
        { mutex := m1, world := w1, halted := false,
          observed := s.observed ++
            (if t.pc = Pc.locked then [(mapLookup s.world.devices t.device.Address).isSome]
             else []),
          threads := s.threads.set i t1 }
      | some (_, .exited w1 _) => { s with world := w1, halted := true }
      | some (_, .panicked w1) => { s with world := w1, halted := true }

/-- An interleaving: the goroutines step in the order of the schedule. -/
def System.run (s : System) (schedule : List Nat) : System := schedule.foldl System.step s

/-- The process when the calls have been started and none has locked yet. -/
def System.init (w : World) (gds : List (Driver × Device)) : System :=
  { mutex := false, world := w, halted := false, observed := [],
    threads := gds.map fun p => { device := p.2, driver := p.1, pc := Pc.start } }

/-- Whether every goroutine has finished its call. -/
def System.allDone (s : System) : Bool := s.threads.all fun t => decide (t.pc = Pc.done)

/-- The schedule that runs the calls one after the other: five steps of
goroutine `0`, then five of goroutine `1`, and so on. -/
def sequentialSchedule (n : Nat) : List Nat :=
  (List.range n).flatMap fun i => List.replicate 5 i

/-- Number of goroutines at position `p`. -/
def cnt (p : Pc) (ts : List Goroutine) : Nat := ts.countP fun t => decide (t.pc = p)

/-- Number of goroutines holding the mutex. -/
def cntCritical (ts : List Goroutine) : Nat :=
  cnt Pc.locked ts + cnt (Pc.decided true) ts + cnt (Pc.decided false) ts +
    cnt (Pc.stored true) ts + cnt (Pc.stored false) ts + cnt Pc.unlocking ts

/-- Number of goroutines that have written the cache. -/
def cntStored (ts : List Goroutine) : Nat :=
  cnt (Pc.stored true) ts + cnt (Pc.stored false) ts + cnt Pc.unlocking ts + cnt Pc.done ts

/-- Number of goroutines that have looked the address up. -/
def cntLooked (ts : List Goroutine) : Nat :=
  cnt (Pc.decided true) ts + cnt (Pc.decided false) ts + cntStored ts

/-- The invariant of concurrent calls for one address `a` that was absent at
the start, `base` being the number of Inserts emitted before. -/
structure Inv (a : String) (base : Nat) (s : System) : Prop where
  critical : cntCritical s.threads = if s.mutex then 1 else 0
  haltedLocked : s.halted = true → s.mutex = true
  addr : ∀ d ∈ s.threads.map Goroutine.device, d.Address = a
  window : ∀ d ∈ s.threads.map Goroutine.device, ∀ e ∈ s.threads.map Goroutine.device,
    d.Detected - e.Detected < Minute
  absent : s.halted = false → cntStored s.threads = 0 → mapLookup s.world.devices a = none
  present : s.halted = false → 0 < cntStored s.threads →
    ∃ d ∈ s.threads.map Goroutine.device, mapLookup s.world.devices a = some d
  insertsRunning : s.halted = false →
    (inserts s.world.emitted).length =
      base + (if 0 < cnt Pc.unlocking s.threads + cnt Pc.done s.threads then 1 else 0)
  insertsHalted : s.halted = true → (inserts s.world.emitted).length = base + 1
  firstFlag : s.halted = false →
    0 < cnt (Pc.decided true) s.threads + cnt (Pc.stored true) s.threads →
    cnt Pc.done s.threads = 0
  laterFlag : s.halted = false →
    0 < cnt (Pc.decided false) s.threads + cnt (Pc.stored false) s.threads →
    0 < cnt Pc.done s.threads
  observedLog : s.halted = false →
    s.observed =
      if cntLooked s.threads = 0 then []
      else false :: List.replicate (cntLooked s.threads - 1) true

theorem roundHalfEven_ge {q : ℚ} {n : ℤ} (h : (n : ℚ) ≤ q) : n ≤ roundHalfEven q := by
  have hf : n ≤ ⌊q⌋ := Int.le_floor.mpr h
  unfold roundHalfEven
  simp only
  split_ifs <;> omega

theorem roundHalfEven_le {q : ℚ} {n : ℤ} (h : q < (n : ℚ) + 1 / 2) : roundHalfEven q ≤ n := by
  have hf : ⌊q⌋ ≤ n := by
    have : ⌊q⌋ < n + 1 := by
      rw [Int.floor_lt]
      push_cast
      linarith
    omega
  have hfl : ((⌊q⌋ : ℤ) : ℚ) ≤ q := Int.floor_le q
  unfold roundHalfEven
  simp only
  by_cases hr : q - (⌊q⌋ : ℚ) < 1 / 2
  · rw [if_pos hr]; exact hf
  · have hlt : ⌊q⌋ < n := by
      rcases lt_or_eq_of_le hf with h1 | h1
      · exact h1
      · exfalso; apply hr; rw [h1]; linarith
    split_ifs <;> omega

theorem roundHalfEven_intCast (n : ℤ) : roundHalfEven (n : ℚ) = n := by
  unfold roundHalfEven
  simp

theorem ulp_pos (q : ℚ) : (0 : ℚ) < 2 ^ (Int.log 2 |q| - 52) := by positivity

theorem roundFloat64_nonneg {q : ℚ} (h : 0 ≤ q) : 0 ≤ roundFloat64 q := by
  unfold roundFloat64
  split_ifs with h0
  · exact le_refl _
  · simp only
    have hu := ulp_pos q
    have : ((0 : ℤ) : ℚ) ≤ q / 2 ^ (Int.log 2 |q| - 52) := by
      simp only [Int.cast_zero]; positivity
    have h1 := roundHalfEven_ge this
    have : (0 : ℚ) ≤ (roundHalfEven (q / 2 ^ (Int.log 2 |q| - 52)) : ℚ) := by exact_mod_cast h1
    positivity

theorem roundFloat64_nonpos {q : ℚ} (h : q ≤ 0) : roundFloat64 q ≤ 0 := by
  unfold roundFloat64
  split_ifs with h0
  · exact le_refl _
  · simp only
    have hu := ulp_pos q
    have : q / 2 ^ (Int.log 2 |q| - 52) < ((0 : ℤ) : ℚ) + 1 / 2 := by
      have : q / 2 ^ (Int.log 2 |q| - 52) ≤ 0 := div_nonpos_of_nonpos_of_nonneg h hu.le
      simp only [Int.cast_zero]; linarith
    have h1 := roundHalfEven_le this
    have : (roundHalfEven (q / 2 ^ (Int.log 2 |q| - 52)) : ℚ) ≤ 0 := by exact_mod_cast h1
    exact mul_nonpos_of_nonpos_of_nonneg this hu.le


theorem roundFloat64_one_le {q : ℚ} (h : 1 ≤ q) : 1 ≤ roundFloat64 q := by
  have hq : 0 < q := by linarith
  have habs : |q| = q := abs_of_pos hq
  unfold roundFloat64
  rw [if_neg hq.ne']
  simp only [habs]
  have he : 0 ≤ Int.log 2 q := by
    have := (Int.zpow_le_iff_le_log (b := 2) (by norm_num) hq (x := 0)).mp (by simpa using h)
    exact this
  have hle : ((2 : ℕ) : ℚ) ^ Int.log 2 q ≤ q := Int.zpow_log_le_self (by norm_num) hq
  have hu : (0 : ℚ) < 2 ^ (Int.log 2 q - 52) := by positivity
  have hsplit : (2 : ℚ) ^ Int.log 2 q = 2 ^ (52 : ℤ) * 2 ^ (Int.log 2 q - 52) := by
    rw [← zpow_add₀ (by norm_num : (2 : ℚ) ≠ 0)]; congr 1; ring
  have h52 : (((2 : ℤ) ^ 52 : ℤ) : ℚ) ≤ q / 2 ^ (Int.log 2 q - 52) := by
    rw [le_div_iff₀ hu]
    push_cast at hle ⊢
    calc (2 : ℚ) ^ 52 * 2 ^ (Int.log 2 q - 52) = 2 ^ Int.log 2 q := by
          rw [hsplit]; norm_num
      _ ≤ q := hle
  have h1 := roundHalfEven_ge h52
  have h2 : ((2 : ℚ) ^ (52 : ℤ)) ≤ (roundHalfEven (q / 2 ^ (Int.log 2 q - 52)) : ℚ) := by
    have : (((2 : ℤ) ^ 52 : ℤ) : ℚ) ≤ (roundHalfEven (q / 2 ^ (Int.log 2 q - 52)) : ℚ) := by
      exact_mod_cast h1
    have e : (((2 : ℤ) ^ 52 : ℤ) : ℚ) = (2 : ℚ) ^ (52 : ℤ) := by norm_num
    rw [← e]; exact this
  calc (1 : ℚ) ≤ 2 ^ Int.log 2 q := one_le_zpow₀ (by norm_num) he
    _ = 2 ^ (52 : ℤ) * 2 ^ (Int.log 2 q - 52) := hsplit
    _ ≤ _ := mul_le_mul_of_nonneg_right h2 hu.le


theorem roundFloat64_lt_one {q : ℚ} (h0 : 0 ≤ q) (h : q < 1 - 1 / 2 ^ 54) :
    roundFloat64 q ≤ 1 - 1 / 2 ^ 53 := by
  rcases eq_or_lt_of_le h0 with hz | hq
  · rw [← hz]; unfold roundFloat64; norm_num
  have habs : |q| = q := abs_of_pos hq
  unfold roundFloat64
  rw [if_neg hq.ne']
  simp only [habs]
  have he : Int.log 2 q < 0 := by
    apply (Int.lt_zpow_iff_log_lt (b := 2) (by norm_num) hq (x := 0)).mp
    have : (1 : ℚ) - 1 / 2 ^ 54 < 1 := by norm_num
    simpa using lt_trans h this
  have hlt : q < ((2 : ℕ) : ℚ) ^ (Int.log 2 q + 1) := Int.lt_zpow_succ_log_self (by norm_num) q
  have hu : (0 : ℚ) < 2 ^ (Int.log 2 q - 52) := by positivity
  have hsplit : (2 : ℚ) ^ (Int.log 2 q + 1) = 2 ^ (53 : ℤ) * 2 ^ (Int.log 2 q - 52) := by
    rw [← zpow_add₀ (by norm_num : (2 : ℚ) ≠ 0)]; congr 1; ring
  rcases eq_or_lt_of_le (Int.le_sub_one_of_lt he) with he1 | he2
  · -- the binade [1/2, 1)
    have hu53 : (2 : ℚ) ^ (Int.log 2 q - 52) = 1 / 2 ^ 53 := by
      rw [he1]; norm_num
    rw [hu53]
    have hb : q / (1 / 2 ^ 53) < (((2 : ℤ) ^ 53 - 1 : ℤ) : ℚ) + 1 / 2 := by
      rw [div_lt_iff₀ (by positivity)]
      push_cast
      linarith
    have h1 := roundHalfEven_le hb
    have h2 : (roundHalfEven (q / (1 / 2 ^ 53)) : ℚ) ≤ (((2 : ℤ) ^ 53 - 1 : ℤ) : ℚ) := by
      exact_mod_cast h1
    have h3 : (roundHalfEven (q / (1 / 2 ^ 53)) : ℚ) ≤ 2 ^ 53 - 1 := by
      have e : (((2 : ℤ) ^ 53 - 1 : ℤ) : ℚ) = 2 ^ 53 - 1 := by norm_num
      rw [← e]; exact h2
    calc (roundHalfEven (q / (1 / 2 ^ 53)) : ℚ) * (1 / 2 ^ 53)
        ≤ (2 ^ 53 - 1) * (1 / 2 ^ 53) := mul_le_mul_of_nonneg_right h3 (by positivity)
      _ = 1 - 1 / 2 ^ 53 := by norm_num
  · -- below 1/2
    have hb : q / 2 ^ (Int.log 2 q - 52) < (((2 : ℤ) ^ 53 : ℤ) : ℚ) + 1 / 2 := by
      rw [div_lt_iff₀ hu]
      push_cast at hlt ⊢
      rw [hsplit] at hlt
      have e53 : (2 : ℚ) ^ (53 : ℤ) = 2 ^ 53 := by norm_num
      rw [e53] at hlt
      nlinarith
    have h1 := roundHalfEven_le hb
    have h2 : (roundHalfEven (q / 2 ^ (Int.log 2 q - 52)) : ℚ) ≤ (((2 : ℤ) ^ 53 : ℤ) : ℚ) := by
      exact_mod_cast h1
    have e53 : (((2 : ℤ) ^ 53 : ℤ) : ℚ) = (2 : ℚ) ^ (53 : ℤ) := by norm_num
    rw [e53] at h2
    have hhalf : (2 : ℚ) ^ (Int.log 2 q + 1) ≤ 2 ^ (-1 : ℤ) :=
      zpow_le_zpow_right₀ (by norm_num) (by omega)
    calc (roundHalfEven (q / 2 ^ (Int.log 2 q - 52)) : ℚ) * 2 ^ (Int.log 2 q - 52)
        ≤ 2 ^ (53 : ℤ) * 2 ^ (Int.log 2 q - 52) := mul_le_mul_of_nonneg_right h2 hu.le
      _ = 2 ^ (Int.log 2 q + 1) := hsplit.symm
      _ ≤ 2 ^ (-1 : ℤ) := hhalf
      _ ≤ 1 - 1 / 2 ^ 53 := by norm_num

theorem roundFloat64_intCast {n : ℤ} (h0 : 0 ≤ n) (h : n < 2 ^ 53) :
    roundFloat64 (n : ℚ) = n := by
  rcases eq_or_lt_of_le h0 with hz | hn
  · rw [← hz]; unfold roundFloat64; simp
  have hq : (0 : ℚ) < n := by exact_mod_cast hn
  have habs : |(n : ℚ)| = n := abs_of_pos hq
  unfold roundFloat64
  rw [if_neg hq.ne']
  simp only [habs]
  have he : Int.log 2 (n : ℚ) < 53 := by
    apply (Int.lt_zpow_iff_log_lt (b := 2) (by norm_num) hq (x := 53)).mp
    have h1 : (n : ℚ) < ((2 ^ 53 : ℤ) : ℚ) := Int.cast_lt.mpr h
    have e : ((2 ^ 53 : ℤ) : ℚ) = ((2 : ℕ) : ℚ) ^ (53 : ℤ) := by norm_num
    rw [← e]; exact h1
  obtain ⟨k, hk⟩ : ∃ k : ℕ, (52 : ℤ) - Int.log 2 (n : ℚ) = k := ⟨(52 - Int.log 2 (n : ℚ)).toNat, by omega⟩
  have hexp : Int.log 2 (n : ℚ) - 52 = -(k : ℤ) := by omega
  rw [hexp, zpow_neg, zpow_natCast, div_inv_eq_mul]
  have : (n : ℚ) * 2 ^ k = ((n * 2 ^ k : ℤ) : ℚ) := by push_cast; ring
  rw [this, roundHalfEven_intCast]
  push_cast
  field_simp


theorem Sub_lt_Minute_iff (t u : Int) : Sub t u < Minute ↔ t - u < Minute := by
  unfold Sub Minute maxDuration minDuration
  simp only
  split_ifs <;> constructor <;> intro h <;> omega

theorem Minutes_lt_one_iff (d : Int) : Minutes d < 1 ↔ d < Minute := by
  have hM : (0 : Int) < Minute := by unfold Minute; norm_num
  constructor
  · intro h
    by_contra hge
    push_neg at hge
    have hd0 : 0 ≤ d := le_trans hM.le hge
    have hmin : 1 ≤ Int.tdiv d Minute := by
      rw [Int.tdiv_eq_ediv hd0 hM.le]
      exact (Int.le_ediv_iff_mul_le hM).mpr (by simpa using hge)
    have hnsec : 0 ≤ Int.tmod d Minute := Int.tmod_nonneg _ hd0
    have h1 : (1 : ℚ) ≤ roundFloat64 (Int.tdiv d Minute) :=
      roundFloat64_one_le (by exact_mod_cast hmin)
    have h2 : (0 : ℚ) ≤ roundFloat64 (Int.tmod d Minute) :=
      roundFloat64_nonneg (by exact_mod_cast hnsec)
    have h3 : (0 : ℚ) ≤ roundFloat64 (roundFloat64 (Int.tmod d Minute) / 60000000000) :=
      roundFloat64_nonneg (by positivity)
    have h4 := roundFloat64_one_le (q := roundFloat64 (Int.tdiv d Minute) +
      roundFloat64 (roundFloat64 (Int.tmod d Minute) / 60000000000)) (by linarith)
    unfold Minutes at h
    simp only at h
    linarith
  · intro h
    unfold Minutes
    simp only
    rcases le_or_lt 0 d with hd0 | hneg
    · rw [Int.tdiv_eq_zero_of_lt hd0 h, Int.tmod_eq_of_lt hd0 h]
      have hd53 : d < 2 ^ 53 := by unfold Minute at h; omega
      rw [roundFloat64_intCast hd0 hd53]
      have hz : roundFloat64 ((0 : ℤ) : ℚ) = 0 := by unfold roundFloat64; simp
      rw [hz, zero_add]
      have hdq : (d : ℚ) ≤ 59999999999 := by
        have : d ≤ 59999999999 := by unfold Minute at h; omega
        exact_mod_cast this
      have hd0q : (0 : ℚ) ≤ d := by exact_mod_cast hd0
      have hq0 : (0 : ℚ) ≤ (d : ℚ) / 60000000000 := by positivity
      have hq1 : (d : ℚ) / 60000000000 < 1 - 1 / 2 ^ 54 := by
        rw [div_lt_iff₀ (by norm_num)]
        norm_num
        linarith
      have ha := roundFloat64_lt_one hq0 hq1
      have ha0 := roundFloat64_nonneg hq0
      have hb := roundFloat64_lt_one ha0 (lt_of_le_of_lt ha (by norm_num))
      exact lt_of_le_of_lt hb (by norm_num)
    · have hmin : Int.tdiv d Minute ≤ 0 := by
        have : d = -(-d) := by ring
        rw [this, Int.neg_tdiv]
        have := Int.tdiv_nonneg (a := -d) (b := Minute) (by omega) hM.le
        omega
      have hnsec : Int.tmod d Minute ≤ 0 := by
        have hdef := Int.tmod_def d Minute
        have hneg' : (-d).tmod Minute = -d - Minute * (-d).tdiv Minute := Int.tmod_def _ _
        rw [Int.neg_tdiv] at hneg'
        have hnn := Int.tmod_nonneg (a := -d) Minute (by omega)
        rw [hdef]
        rw [hneg'] at hnn
        linarith [hnn, mul_neg Minute (d.tdiv Minute)]
      have h1 : roundFloat64 (Int.tdiv d Minute) ≤ 0 :=
        roundFloat64_nonpos (by exact_mod_cast hmin)
      have h2 : roundFloat64 (Int.tmod d Minute) ≤ 0 :=
        roundFloat64_nonpos (by exact_mod_cast hnsec)
      have h3 : roundFloat64 (roundFloat64 (Int.tmod d Minute) / 60000000000) ≤ 0 :=
        roundFloat64_nonpos (div_nonpos_of_nonpos_of_nonneg h2 (by norm_num))
      have h4 := roundFloat64_nonpos (q := roundFloat64 (Int.tdiv d Minute) +
        roundFloat64 (roundFloat64 (Int.tmod d Minute) / 60000000000)) (by linarith)
      linarith

/-- The test `timediff < 1` of `advHandler` decides whether the two clock
readings are less than one minute apart. -/
theorem timediff_lt_one_iff (t u : Int) : Minutes (Sub t u) < 1 ↔ t - u < Minute := by
  rw [Minutes_lt_one_iff, Sub_lt_Minute_iff]

/-! ## The map -/

theorem mapLookup_mapStore_self (m : DeviceMap) (k : String) (v : Device) :
    mapLookup (mapStore m k v) k = some v := by
  induction m with
  | nil => simp [mapStore, mapLookup]
  | cons p rest ih =>
    obtain ⟨k', v'⟩ := p
    by_cases hk : k' = k
    · simp [mapStore, mapLookup, hk]
    · simp [mapStore, mapLookup, hk, ih]

theorem mapLookup_mapStore_ne (m : DeviceMap) (k b : String) (v : Device) (hb : b ≠ k) :
    mapLookup (mapStore m k v) b = mapLookup m b := by
  induction m with
  | nil => simp [mapStore, mapLookup, Ne.symm hb]
  | cons p rest ih =>
    obtain ⟨k', v'⟩ := p
    by_cases hk : k' = k
    · subst hk
      simp [mapStore, mapLookup, Ne.symm hb]
    · by_cases hkb : k' = b
      · subst hkb
        simp [mapStore, mapLookup, hk]
      · simp [mapStore, mapLookup, hk, hkb, ih]

theorem mapStore_of_lookup_none (m : DeviceMap) (k : String) (v : Device)
    (h : mapLookup m k = none) : mapStore m k v = m ++ [(k, v)] := by
  induction m with
  | nil => simp [mapStore]
  | cons p rest ih =>
    obtain ⟨k', v'⟩ := p
    by_cases hk : k' = k
    · simp [mapLookup, hk] at h
    · simp only [mapLookup, hk, if_false] at h
      simp [mapStore, hk, ih h]

theorem mapLookup_isSome_mapStore (m : DeviceMap) (k b : String) (v : Device)
    (h : (mapLookup m b).isSome = true) : (mapLookup (mapStore m k v) b).isSome = true := by
  by_cases hb : b = k
  · subst hb; simp [mapLookup_mapStore_self]
  · rw [mapLookup_mapStore_ne m k b v hb]; exact h

/-! ## Strings -/

theorem utf8ByteSize_pos_iff (s : String) : 0 < s.utf8ByteSize ↔ s ≠ "" := by
  obtain ⟨cs⟩ := s
  cases cs with
  | nil => simp [String.utf8ByteSize, String.utf8ByteSize.go]
  | cons c rest =>
    have hc := Char.utf8Size_pos c
    have hne : (String.mk (c :: rest)) ≠ "" := by
      intro h
      have := congrArg String.data h
      simp at this
    simp only [String.utf8ByteSize, String.utf8ByteSize.go, ne_eq, hne, not_false_eq_true,
      iff_true]
    omega

/-! ## The persistence functions -/

theorem handleData_emitted (g : Driver) (w : World) (a : String) (d : Device) :
    (handleData g w a d).world.emitted =
      w.emitted ++ [Command.Insert d.Detected d.Address d.RSSI d.Name] := by
  obtain ⟨p, e, id⟩ := g
  cases p <;> cases e <;> simp [handleData, chkErr, Outcome.world]

theorem handleData_devices (g : Driver) (w : World) (a : String) (d : Device) :
    (handleData g w a d).world.devices = w.devices := by
  obtain ⟨p, e, id⟩ := g
  cases p <;> cases e <;> simp [handleData, chkErr, Outcome.world]

theorem handleData_healthy (g : Driver) (w : World) (a : String) (d : Device)
    (hp : g.prepare = Cause.nil) (he : g.exec = Cause.nil) :
    handleData g w a d = Outcome.returned
      { devices := w.devices,
        beacon := sqlInsert w.beacon g.lastInsertId d.Detected d.Address d.RSSI d.Name,
        emitted := w.emitted ++ [Command.Insert d.Detected d.Address d.RSSI d.Name] } () := by
  obtain ⟨p, e, id⟩ := g
  simp only at hp he
  subst hp he
  simp [handleData, chkErr]

theorem updateData_emitted (g : Driver) (w : World) (a : String) (d : Device) :
    (updateData g w a d).world.emitted = w.emitted ++ [Command.Update d.Name d.Address] := by
  obtain ⟨p, e, id⟩ := g
  cases p <;> cases e <;> simp [updateData, chkErr, Outcome.world]

theorem updateData_devices (g : Driver) (w : World) (a : String) (d : Device) :
    (updateData g w a d).world.devices = w.devices := by
  obtain ⟨p, e, id⟩ := g
  cases p <;> cases e <;> simp [updateData, chkErr, Outcome.world]

theorem updateData_healthy (g : Driver) (w : World) (a : String) (d : Device)
    (hp : g.prepare = Cause.nil) (he : g.exec = Cause.nil) :
    updateData g w a d = Outcome.returned
      { devices := w.devices,
        beacon := sqlUpdate w.beacon d.Name d.Address,
        emitted := w.emitted ++ [Command.Update d.Name d.Address] } () := by
  obtain ⟨p, e, id⟩ := g
  simp only at hp he
  subst hp he
  simp [updateData, chkErr]

/-! ## The branches of the locked section -/

theorem decidePhase_absent (g : Driver) (w : World) (a : String) (d : Device)
    (h : mapLookup w.devices a = none) : decidePhase g w a d = Outcome.returned w true := by
  simp [decidePhase, h]

theorem decidePhase_expired (g : Driver) (w : World) (a : String) (d v : Device)
    (h : mapLookup w.devices a = some v) (ht : Minute ≤ d.Detected - v.Detected) :
    decidePhase g w a d = Outcome.returned w true := by
  have hnot : ¬ Minutes (Sub d.Detected v.Detected) < 1 := by
    rw [timediff_lt_one_iff]; omega
  simp [decidePhase, h, hnot]

theorem decidePhase_silent (g : Driver) (w : World) (a : String) (d v : Device)
    (h : mapLookup w.devices a = some v) (ht : d.Detected - v.Detected < Minute)
    (hn : d.Name = "") : decidePhase g w a d = Outcome.returned w false := by
  have hlt : Minutes (Sub d.Detected v.Detected) < 1 := (timediff_lt_one_iff _ _).mpr ht
  have hz : ¬ 0 < d.Name.utf8ByteSize := by
    rw [utf8ByteSize_pos_iff]; simp [hn]
  simp only [decidePhase, h, hlt, if_true, hz, if_false]

theorem decidePhase_named (g : Driver) (w : World) (a : String) (d v : Device)
    (h : mapLookup w.devices a = some v) (ht : d.Detected - v.Detected < Minute)
    (hn : d.Name ≠ "") :
    decidePhase g w a d =
      match updateData g w a d with
      | .returned w1 _ => .returned w1 false
      | .exited w1 c => .exited w1 c
      | .panicked w1 => .panicked w1 := by
  have hlt : Minutes (Sub d.Detected v.Detected) < 1 := (timediff_lt_one_iff _ _).mpr ht
  have hz : 0 < d.Name.utf8ByteSize := (utf8ByteSize_pos_iff _).mpr hn
  simp only [decidePhase, h, hlt, if_true, hz]

theorem ProcessSighting_absent (g : Driver) (w : World) (d : Device)
    (h : mapLookup w.devices d.Address = none) :
    ProcessSighting g w d = handleData g (storePhase w d.Address d) d.Address d := by
  simp [ProcessSighting, decidePhase_absent g w _ d h, insertPhase]

theorem ProcessSighting_expired (g : Driver) (w : World) (d v : Device)
    (h : mapLookup w.devices d.Address = some v) (ht : Minute ≤ d.Detected - v.Detected) :
    ProcessSighting g w d = handleData g (storePhase w d.Address d) d.Address d := by
  simp [ProcessSighting, decidePhase_expired g w _ d v h ht, insertPhase]

theorem ProcessSighting_silent (g : Driver) (w : World) (d v : Device)
    (h : mapLookup w.devices d.Address = some v) (ht : d.Detected - v.Detected < Minute)
    (hn : d.Name = "") :
    ProcessSighting g w d = Outcome.returned (storePhase w d.Address d) () := by
  simp [ProcessSighting, decidePhase_silent g w _ d v h ht hn, insertPhase]

theorem ProcessSighting_named (g : Driver) (w : World) (d v : Device)
    (h : mapLookup w.devices d.Address = some v) (ht : d.Detected - v.Detected < Minute)
    (hn : d.Name ≠ "") :
    ProcessSighting g w d =
      match updateData g w d.Address d with
      | .returned w1 _ => .returned (storePhase w1 d.Address d) ()
      | .exited w1 c => .exited w1 c
      | .panicked w1 => .panicked w1 := by
  rw [ProcessSighting, decidePhase_named g w _ d v h ht hn]
  cases updateData g w d.Address d <;> simp [insertPhase]

theorem inserts_append_insert (cs : List Command) (t : Int) (a : String) (r : Int) (n : String) :
    inserts (cs ++ [Command.Insert t a r n]) = inserts cs ++ [Command.Insert t a r n] := by
  simp [inserts, List.filter_append, Command.isInsert]

theorem inserts_append_update (cs : List Command) (n a : String) :
    inserts (cs ++ [Command.Update n a]) = inserts cs := by
  simp [inserts, List.filter_append, Command.isInsert]

theorem ProcessSighting_devices (g : Driver) (w : World) (d : Device) :
    (ProcessSighting g w d).world.devices = w.devices ∨
      (ProcessSighting g w d).world.devices = mapStore w.devices d.Address d := by
  cases hl : mapLookup w.devices d.Address with
  | none =>
    right
    rw [ProcessSighting_absent g w d hl, handleData_devices]; rfl
  | some v =>
    by_cases ht : d.Detected - v.Detected < Minute
    · by_cases hn : d.Name = ""
      · right
        rw [ProcessSighting_silent g w d v hl ht hn]; rfl
      · rw [ProcessSighting_named g w d v hl ht hn]
        have hdev := updateData_devices g w d.Address d
        cases hu : updateData g w d.Address d with
        | returned w1 r =>
          right
          rw [hu] at hdev
          simp only [Outcome.world] at hdev
          simp [Outcome.world, storePhase, hdev]
        | exited w1 c =>
          left
          rw [hu] at hdev
          simpa [Outcome.world] using hdev
        | panicked w1 =>
          left
          rw [hu] at hdev
          simpa [Outcome.world] using hdev
    · right
      rw [ProcessSighting_expired g w d v hl (not_lt.mp ht), handleData_devices]; rfl

theorem ProcessSighting_returned_devices (g : Driver) (w w1 : World) (d : Device) (r : Unit)
    (h : ProcessSighting g w d = Outcome.returned w1 r) :
    w1.devices = mapStore w.devices d.Address d := by
  cases hl : mapLookup w.devices d.Address with
  | none =>
    have h2 := handleData_devices g (storePhase w d.Address d) d.Address d
    rw [← ProcessSighting_absent g w d hl, h] at h2
    exact h2
  | some v =>
    by_cases ht : d.Detected - v.Detected < Minute
    · by_cases hn : d.Name = ""
      · rw [ProcessSighting_silent g w d v hl ht hn] at h
        injection h with h1 _
        rw [← h1]; rfl
      · rw [ProcessSighting_named g w d v hl ht hn] at h
        have hdev := updateData_devices g w d.Address d
        cases hu : updateData g w d.Address d with
        | returned w2 r2 =>
          rw [hu] at h hdev
          simp only [Outcome.world] at hdev
          simp only at h
          injection h with h1 _
          rw [← h1]
          simp [storePhase, hdev]
        | exited w2 c => rw [hu] at h; simp at h
        | panicked w2 => rw [hu] at h; simp at h
    · have h2 := handleData_devices g (storePhase w d.Address d) d.Address d
      rw [← ProcessSighting_expired g w d v hl (not_lt.mp ht), h] at h2
      exact h2

theorem ProcessSighting_duplicate (g : Driver) (w : World) (d v : Device)
    (hl : mapLookup w.devices d.Address = some v) (ht : d.Detected - v.Detected < Minute) :
    inserts (ProcessSighting g w d).world.emitted = inserts w.emitted := by
  by_cases hn : d.Name = ""
  · rw [ProcessSighting_silent g w d v hl ht hn]; rfl
  · rw [ProcessSighting_named g w d v hl ht hn]
    have hem := updateData_emitted g w d.Address d
    cases hu : updateData g w d.Address d with
    | returned w1 r =>
      rw [hu] at hem
      simp only [Outcome.world] at hem
      simp only [Outcome.world, storePhase, hem, inserts_append_update]
    | exited w1 c =>
      rw [hu] at hem
      simp only [Outcome.world] at hem
      simp only [Outcome.world, hem, inserts_append_update]
    | panicked w1 =>
      rw [hu] at hem
      simp only [Outcome.world] at hem
      simp only [Outcome.world, hem, inserts_append_update]

theorem ProcessSighting_healthy_returns (g : Driver) (w : World) (d : Device)
    (hp : g.prepare = Cause.nil) (he : g.exec = Cause.nil) :
    (ProcessSighting g w d).isReturned = true := by
  cases hl : mapLookup w.devices d.Address with
  | none =>
    rw [ProcessSighting_absent g w d hl, handleData_healthy g _ _ _ hp he]; rfl
  | some v =>
    by_cases ht : d.Detected - v.Detected < Minute
    · by_cases hn : d.Name = ""
      · rw [ProcessSighting_silent g w d v hl ht hn]; rfl
      · rw [ProcessSighting_named g w d v hl ht hn, updateData_healthy g _ _ _ hp he]; rfl
    · rw [ProcessSighting_expired g w d v hl (not_lt.mp ht), handleData_healthy g _ _ _ hp he]
      rfl

theorem processAll_healthy_returns (gds : List (Driver × Device)) (w : World)
    (h : ∀ p ∈ gds, p.1.prepare = Cause.nil ∧ p.1.exec = Cause.nil) :
    (processAll gds w).isReturned = true := by
  induction gds generalizing w with
  | nil => rfl
  | cons p rest ih =>
    obtain ⟨g, d⟩ := p
    have hg := h (g, d) (List.mem_cons_self _ _)
    have hr := ProcessSighting_healthy_returns g w d hg.1 hg.2
    cases hu : ProcessSighting g w d with
    | returned w1 r =>
      simp only [processAll, hu]
      exact ih w1 (fun p hp => h p (List.mem_cons_of_mem _ hp))
    | exited w1 c => rw [hu] at hr; simp [Outcome.isReturned] at hr
    | panicked w1 => rw [hu] at hr; simp [Outcome.isReturned] at hr

theorem processAll_duplicates (gds : List (Driver × Device)) (w : World) (a : String)
    (v : Device) (hl : mapLookup w.devices a = some v)
    (haddr : ∀ p ∈ gds, p.2.Address = a)
    (hchain : List.Chain (fun x y : Device => y.Detected - x.Detected < Minute) v
      (gds.map Prod.snd)) :
    inserts (processAll gds w).world.emitted = inserts w.emitted := by
  induction gds generalizing w v with
  | nil => rfl
  | cons p rest ih =>
    obtain ⟨g, d⟩ := p
    have hda : d.Address = a := haddr (g, d) (List.mem_cons_self _ _)
    simp only [List.map_cons, List.chain_cons] at hchain
    have hl' : mapLookup w.devices d.Address = some v := by rw [hda]; exact hl
    have hdup := ProcessSighting_duplicate g w d v hl' hchain.1
    cases hu : ProcessSighting g w d with
    | returned w1 r =>
      simp only [processAll, hu]
      rw [hu] at hdup
      simp only [Outcome.world] at hdup
      have hdev := ProcessSighting_returned_devices g w w1 d r hu
      have hl1 : mapLookup w1.devices a = some d := by
        rw [hdev, hda]; exact mapLookup_mapStore_self _ _ _
      rw [ih w1 d hl1 (fun p hp => haddr p (List.mem_cons_of_mem _ hp)) hchain.2]
      exact hdup
    | exited w1 c =>
      simp only [processAll, hu]
      rw [hu] at hdup
      exact hdup
    | panicked w1 =>
      simp only [processAll, hu]
      rw [hu] at hdup
      exact hdup

theorem processAll_lookup (gds : List (Driver × Device)) (w w1 : World) (r : Unit)
    (h : processAll gds w = Outcome.returned w1 r) (a : String) :
    mapLookup w1.devices a =
      match lastSighting a (gds.map Prod.snd) with
      | some d => some d
      | none => mapLookup w.devices a := by
  induction gds generalizing w with
  | nil =>
    simp only [processAll] at h
    injection h with h1 _
    simp [lastSighting, h1]
  | cons p rest ih =>
    obtain ⟨g, d⟩ := p
    cases hu : ProcessSighting g w d with
    | returned w2 r2 =>
      simp only [processAll, hu] at h
      have hrec := ih w2 h
      have hdev := ProcessSighting_returned_devices g w w2 d r2 hu
      rw [hrec]
      simp only [List.map_cons, lastSighting]
      cases hls : lastSighting a (List.map Prod.snd rest) with
      | some e => rfl
      | none =>
        simp only
        by_cases hda : d.Address = a
        · rw [if_pos hda, hdev, hda]; exact mapLookup_mapStore_self _ _ _
        · rw [if_neg hda, hdev]
          exact mapLookup_mapStore_ne _ _ _ _ (fun hh => hda hh.symm)
    | exited w2 c => simp [processAll, hu] at h
    | panicked w2 => simp [processAll, hu] at h

theorem handleData_failing (g : Driver) (w : World) (a : String) (d : Device)
    (hfail : g.prepare = Cause.other ∨ (g.prepare = Cause.nil ∧ g.exec = Cause.other)) :
    ∃ w1, handleData g w a d = Outcome.exited w1 1 := by
  obtain ⟨p, e, id⟩ := g
  simp only at hfail
  rcases hfail with hp | ⟨hp, he⟩
  · subst hp; exact ⟨_, by simp [handleData, chkErr]; rfl⟩
  · subst hp he; exact ⟨_, by simp [handleData, chkErr]; rfl⟩

theorem updateData_failing (g : Driver) (w : World) (a : String) (d : Device)
    (hfail : g.prepare = Cause.other ∨ (g.prepare = Cause.nil ∧ g.exec = Cause.other)) :
    ∃ w1, updateData g w a d = Outcome.exited w1 1 := by
  obtain ⟨p, e, id⟩ := g
  simp only at hfail
  rcases hfail with hp | ⟨hp, he⟩
  · subst hp; exact ⟨_, by simp [updateData, chkErr]; rfl⟩
  · subst hp he; exact ⟨_, by simp [updateData, chkErr]; rfl⟩

theorem first_step_emitted (g : Driver) (rows : List Row) (d : Device) :
    (ProcessSighting g (World.mk [] rows []) d).world.emitted =
      [Command.Insert d.Detected d.Address d.RSSI d.Name] := by
  rw [ProcessSighting_absent g (World.mk [] rows []) d rfl, handleData_emitted]; rfl

theorem ProcessSighting_named_emitted (g : Driver) (w : World) (d v : Device)
    (h : mapLookup w.devices d.Address = some v)
    (ht : d.Detected - v.Detected < Minute) (hn : d.Name ≠ "") :
    (ProcessSighting g w d).world.emitted = w.emitted ++ [Command.Update d.Name d.Address] := by
  rw [ProcessSighting_named g w d v h ht hn]
  have hem := updateData_emitted g w d.Address d
  cases hu : updateData g w d.Address d with
  | returned w1 r =>
    rw [hu] at hem
    simpa [Outcome.world, storePhase] using hem
  | exited w1 c =>
    rw [hu] at hem
    simpa [Outcome.world] using hem
  | panicked w1 =>
    rw [hu] at hem
    simpa [Outcome.world] using hem

theorem returned_of_isReturned (o : Outcome Unit) (h : o.isReturned = true) :
    ∃ w1, o = Outcome.returned w1 () := by
  cases o with
  | returned w1 r => exact ⟨w1, rfl⟩
  | exited w1 c => simp [Outcome.isReturned] at h
  | panicked w1 => simp [Outcome.isReturned] at h

/-! ## Concurrent calls: the invariant -/

theorem threads_split (ts : List Goroutine) (i : Nat) (t : Goroutine)
    (h : ts[i]? = some t) :
    ∃ l r, ts = l ++ t :: r ∧ ∀ t1, ts.set i t1 = l ++ t1 :: r := by
  induction ts generalizing i with
  | nil => simp at h
  | cons x rest ih =>
    cases i with
    | zero =>
      simp only [List.getElem?_cons_zero, Option.some.injEq] at h
      subst h
      exact ⟨[], rest, rfl, fun t1 => rfl⟩
    | succ j =>
      simp only [List.getElem?_cons_succ] at h
      obtain ⟨l, r, hlr, hset⟩ := ih j h
      refine ⟨x :: l, r, by rw [hlr]; rfl, fun t1 => ?_⟩
      simp only [List.set_cons_succ, hset, List.cons_append]

theorem cnt_split (p : Pc) (l r : List Goroutine) (t : Goroutine) :
    cnt p (l ++ t :: r) = cnt p l + (if t.pc = p then 1 else 0) + cnt p r := by
  simp only [cnt, List.countP_append, List.countP_cons, decide_eq_true_eq]
  omega

theorem decidePhase_within (g : Driver) (w : World) (a : String) (d v : Device)
    (h : mapLookup w.devices a = some v) (ht : d.Detected - v.Detected < Minute) :
    (decidePhase g w a d).world.devices = w.devices ∧
      inserts (decidePhase g w a d).world.emitted = inserts w.emitted ∧
      ∀ w1 b, decidePhase g w a d = Outcome.returned w1 b → b = false := by
  by_cases hn : d.Name = ""
  · rw [decidePhase_silent g w a d v h ht hn]
    exact ⟨rfl, rfl, fun w1 b hb => by injection hb with _ h2; exact h2.symm⟩
  · rw [decidePhase_named g w a d v h ht hn]
    have hem := updateData_emitted g w a d
    have hdev := updateData_devices g w a d
    cases hu : updateData g w a d with
    | returned w1 r =>
      rw [hu] at hem hdev
      simp only [Outcome.world] at hem hdev ⊢
      refine ⟨hdev, by rw [hem, inserts_append_update], fun w2 b hb => ?_⟩
      injection hb with _ h2; exact h2.symm
    | exited w1 c =>
      rw [hu] at hem hdev
      simp only [Outcome.world] at hem hdev ⊢
      exact ⟨hdev, by rw [hem, inserts_append_update], fun w2 b hb => by simp at hb⟩
    | panicked w1 =>
      rw [hu] at hem hdev
      simp only [Outcome.world] at hem hdev ⊢
      exact ⟨hdev, by rw [hem, inserts_append_update], fun w2 b hb => by simp at hb⟩

theorem Inv_lock (a : String) (base : Nat) (w : World) (obs : List Bool)
    (l r : List Goroutine) (d : Device) (g : Driver)
    (h : Inv a base ⟨false, w, false, obs, l ++ ⟨d, g, Pc.start⟩ :: r⟩) :
    Inv a base ⟨true, w, false, obs, l ++ ⟨d, g, Pc.locked⟩ :: r⟩ := by
  obtain ⟨h1, h2, h3, h4, h5, h6, h7, h8, h9, h10, h11⟩ := h
  simp only [cntCritical, cntStored, cntLooked, cnt_split, List.map_append, List.map_cons,
    List.append_nil, reduceCtorEq, if_false, if_true, Pc.decided.injEq, Pc.stored.injEq,
    Bool.true_eq_false, Bool.false_eq_true, add_zero, forall_true_left, false_implies,
    implies_true, true_implies] at h1 h3 h4 h5 h6 h7 h9 h10 h11
  refine ⟨?_, ?_, ?_, ?_, ?_, ?_, ?_, ?_, ?_, ?_, ?_⟩ <;> simp only [cntCritical, cntStored, cntLooked, cnt_split, List.map_append, List.map_cons,
    List.append_nil, reduceCtorEq, if_false, if_true, Pc.decided.injEq, Pc.stored.injEq,
    Bool.true_eq_false, Bool.false_eq_true, add_zero, forall_true_left, false_implies,
    implies_true, true_implies]
  · omega
  · exact h3
  · exact h4
  · exact h5
  · exact h6
  · exact h7
  · exact h9
  · exact h10
  · exact h11

theorem replicate_log_step (k n : Nat) (hk : 0 < k) (hn : n = k + 1) :
    (false :: List.replicate (k - 1) true) ++ [true] = false :: List.replicate (n - 1) true := by
  subst hn
  have e : k + 1 - 1 = (k - 1) + 1 := by omega
  rw [e, List.replicate_succ']
  rfl

theorem Inv_store (a : String) (base : Nat) (m : Bool) (w : World) (obs : List Bool)
    (l r : List Goroutine) (d : Device) (g : Driver) (b : Bool)
    (h : Inv a base ⟨m, w, false, obs, l ++ ⟨d, g, Pc.decided b⟩ :: r⟩) :
    Inv a base ⟨m, storePhase w d.Address d, false, obs, l ++ ⟨d, g, Pc.stored b⟩ :: r⟩ := by
  obtain ⟨h1, h2, h3, h4, h5, h6, h7, h8, h9, h10, h11⟩ := h
  have hda : d.Address = a := h3 d (by simp)
  have hlook : mapLookup (storePhase w d.Address d).devices a = some d := by
    rw [← hda]; exact mapLookup_mapStore_self _ _ _
  cases m <;> cases b <;> simp only [cntCritical, cntStored, cntLooked, cnt_split, List.map_append, List.map_cons,
    List.append_nil, reduceCtorEq, if_false, if_true, Pc.decided.injEq, Pc.stored.injEq,
    Bool.true_eq_false, Bool.false_eq_true, add_zero, forall_true_left, false_implies,
    implies_true, true_implies] at h1 h3 h4 h5 h6 h7 h9 h10 h11
  · omega
  · omega
  · refine ⟨?_, ?_, ?_, ?_, ?_, ?_, ?_, ?_, ?_, ?_, ?_⟩ <;> simp only [cntCritical, cntStored, cntLooked, cnt_split, List.map_append, List.map_cons,
    List.append_nil, reduceCtorEq, if_false, if_true, Pc.decided.injEq, Pc.stored.injEq,
    Bool.true_eq_false, Bool.false_eq_true, add_zero, forall_true_left, false_implies,
    implies_true, true_implies]
    · omega
    · exact h3
    · exact h4
    · intro hz; omega
    · intro _; exact ⟨d, by simp, hlook⟩
    · exact h7
    · exact h9
    · intro _; exact h10 (by omega)
    · rw [h11]
      congr 1
      · simp only [eq_iff_iff]; constructor <;> intro hh <;> omega
      · congr 2; omega
  · refine ⟨?_, ?_, ?_, ?_, ?_, ?_, ?_, ?_, ?_, ?_, ?_⟩ <;> simp only [cntCritical, cntStored, cntLooked, cnt_split, List.map_append, List.map_cons,
    List.append_nil, reduceCtorEq, if_false, if_true, Pc.decided.injEq, Pc.stored.injEq,
    Bool.true_eq_false, Bool.false_eq_true, add_zero, forall_true_left, false_implies,
    implies_true, true_implies]
    · omega
    · exact h3
    · exact h4
    · intro hz; omega
    · intro _; exact ⟨d, by simp, hlook⟩
    · exact h7
    · intro _; exact h9 (by omega)
    · exact h10
    · rw [h11]
      congr 1
      · simp only [eq_iff_iff]; constructor <;> intro hh <;> omega
      · congr 2; omega

theorem Inv_unlock (a : String) (base : Nat) (m : Bool) (w : World) (obs : List Bool)
    (l r : List Goroutine) (d : Device) (g : Driver)
    (h : Inv a base ⟨m, w, false, obs, l ++ ⟨d, g, Pc.unlocking⟩ :: r⟩) :
    Inv a base ⟨false, w, false, obs, l ++ ⟨d, g, Pc.done⟩ :: r⟩ := by
  obtain ⟨h1, h2, h3, h4, h5, h6, h7, h8, h9, h10, h11⟩ := h
  cases m <;> simp only [cntCritical, cntStored, cntLooked, cnt_split, List.map_append, List.map_cons,
    List.append_nil, reduceCtorEq, if_false, if_true, Pc.decided.injEq, Pc.stored.injEq,
    Bool.true_eq_false, Bool.false_eq_true, add_zero, forall_true_left, false_implies,
    implies_true, true_implies] at h1 h3 h4 h5 h6 h7 h9 h10 h11
  · omega
  · refine ⟨?_, ?_, ?_, ?_, ?_, ?_, ?_, ?_, ?_, ?_, ?_⟩ <;> simp only [cntCritical, cntStored, cntLooked, cnt_split, List.map_append, List.map_cons,
    List.append_nil, reduceCtorEq, if_false, if_true, Pc.decided.injEq, Pc.stored.injEq,
    Bool.true_eq_false, Bool.false_eq_true, add_zero, forall_true_left, false_implies,
    implies_true, true_implies]
    · omega
    · exact h3
    · exact h4
    · intro hz; omega
    · intro _; exact h6 (by omega)
    · rw [h7]
      congr 1
      congr 1
      simp only [eq_iff_iff]; constructor <;> intro hh <;> omega
    · intro hz; omega
    · intro hz; omega
    · rw [h11]
      congr 1
      · simp only [eq_iff_iff]; constructor <;> intro hh <;> omega
      · congr 2; omega

theorem Inv_insert (a : String) (base : Nat) (m : Bool) (w w1 : World) (obs : List Bool)
    (l r : List Goroutine) (d : Device) (g : Driver) (b : Bool) (u : Unit)
    (h : Inv a base ⟨m, w, false, obs, l ++ ⟨d, g, Pc.stored b⟩ :: r⟩)
    (hi : insertPhase g w d.Address d b = Outcome.returned w1 u) :
    Inv a base ⟨m, w1, false, obs, l ++ ⟨d, g, Pc.unlocking⟩ :: r⟩ := by
  obtain ⟨h1, h2, h3, h4, h5, h6, h7, h8, h9, h10, h11⟩ := h
  have hdev : w1.devices = w.devices := by
    cases b
    · simp only [insertPhase, Bool.false_eq_true, if_false] at hi
      injection hi with e1 _
      rw [← e1]
    · simp only [insertPhase, if_true] at hi
      have := handleData_devices g w d.Address d
      rw [hi] at this
      exact this
  cases m <;> cases b <;> simp only [cntCritical, cntStored, cntLooked, cnt_split, List.map_append, List.map_cons,
    List.append_nil, reduceCtorEq, if_false, if_true, Pc.decided.injEq, Pc.stored.injEq,
    Bool.true_eq_false, Bool.false_eq_true, add_zero, forall_true_left, false_implies,
    implies_true, true_implies] at h1 h3 h4 h5 h6 h7 h9 h10 h11
  · omega
  · omega
  · have hw : w1 = w := by
      simp only [insertPhase, Bool.false_eq_true, if_false] at hi
      injection hi with e1 _
      exact e1.symm
    subst hw
    have hdone := h10 (by omega)
    refine ⟨?_, ?_, ?_, ?_, ?_, ?_, ?_, ?_, ?_, ?_, ?_⟩ <;> simp only [cntCritical, cntStored, cntLooked, cnt_split, List.map_append, List.map_cons,
    List.append_nil, reduceCtorEq, if_false, if_true, Pc.decided.injEq, Pc.stored.injEq,
    Bool.true_eq_false, Bool.false_eq_true, add_zero, forall_true_left, false_implies,
    implies_true, true_implies]
    · omega
    · exact h3
    · exact h4
    · intro hz; omega
    · intro _; exact h6 (by omega)
    · rw [h7, if_pos (by omega), if_pos (by omega)]
    · intro hz; omega
    · intro hz; omega
    · rw [h11]
      congr 1
      · simp only [eq_iff_iff]; constructor <;> intro hh <;> omega
      · congr 2; omega
  · have hem : w1.emitted = w.emitted ++ [Command.Insert d.Detected d.Address d.RSSI d.Name] := by
      simp only [insertPhase, if_true] at hi
      have := handleData_emitted g w d.Address d
      rw [hi] at this
      exact this
    have hdone := h9 (by omega)
    refine ⟨?_, ?_, ?_, ?_, ?_, ?_, ?_, ?_, ?_, ?_, ?_⟩ <;> simp only [cntCritical, cntStored, cntLooked, cnt_split, List.map_append, List.map_cons,
    List.append_nil, reduceCtorEq, if_false, if_true, Pc.decided.injEq, Pc.stored.injEq,
    Bool.true_eq_false, Bool.false_eq_true, add_zero, forall_true_left, false_implies,
    implies_true, true_implies]
    · omega
    · exact h3
    · exact h4
    · intro hz; omega
    · intro _; rw [hdev]; exact h6 (by omega)
    · rw [hem, inserts_append_insert, List.length_append, h7, if_neg (by omega),
        if_pos (by omega)]
      rfl
    · intro hz; omega
    · intro hz; omega
    · rw [h11]
      congr 1
      · simp only [eq_iff_iff]; constructor <;> intro hh <;> omega
      · congr 2; omega

theorem Inv_insert_crash (a : String) (base : Nat) (m : Bool) (w : World) (obs : List Bool)
    (l r : List Goroutine) (d : Device) (g : Driver) (b : Bool)
    (h : Inv a base ⟨m, w, false, obs, l ++ ⟨d, g, Pc.stored b⟩ :: r⟩)
    (hi : (insertPhase g w d.Address d b).isReturned = false) :
    Inv a base ⟨m, (insertPhase g w d.Address d b).world, true, obs,
      l ++ ⟨d, g, Pc.stored b⟩ :: r⟩ := by
  obtain ⟨h1, h2, h3, h4, h5, h6, h7, h8, h9, h10, h11⟩ := h
  cases b
  · simp [insertPhase, Outcome.isReturned] at hi
  · have hem := handleData_emitted g w d.Address d
    cases m <;> simp only [cntCritical, cntStored, cntLooked, cnt_split, List.map_append, List.map_cons,
    List.append_nil, reduceCtorEq, if_false, if_true, Pc.decided.injEq, Pc.stored.injEq,
    Bool.true_eq_false, Bool.false_eq_true, add_zero, forall_true_left, false_implies,
    implies_true, true_implies] at h1 h3 h4 h5 h6 h7 h9 h10 h11
    · omega
    · have hdone := h9 (by omega)
      refine ⟨?_, ?_, ?_, ?_, ?_, ?_, ?_, ?_, ?_, ?_, ?_⟩ <;>
        simp only [cntCritical, cntStored, cntLooked, cnt_split, List.map_append, List.map_cons,
    List.append_nil, reduceCtorEq, if_false, if_true, Pc.decided.injEq, Pc.stored.injEq,
    Bool.true_eq_false, Bool.false_eq_true, add_zero, forall_true_left, false_implies,
    implies_true, true_implies]
      · omega
      · exact h3
      · exact h4
      · simp only [insertPhase, if_true]
        rw [hem, inserts_append_insert, List.length_append, h7, if_neg (by omega)]
        rfl

theorem Inv_decide (a : String) (base : Nat) (m : Bool) (w w1 : World) (obs : List Bool)
    (l r : List Goroutine) (d : Device) (g : Driver) (b : Bool)
    (h : Inv a base ⟨m, w, false, obs, l ++ ⟨d, g, Pc.locked⟩ :: r⟩)
    (hdp : decidePhase g w d.Address d = Outcome.returned w1 b) :
    Inv a base ⟨m, w1, false, obs ++ [(mapLookup w.devices d.Address).isSome],
      l ++ ⟨d, g, Pc.decided b⟩ :: r⟩ := by
  obtain ⟨h1, h2, h3, h4, h5, h6, h7, h8, h9, h10, h11⟩ := h
  have hda : d.Address = a := h3 d (by simp)
  cases m <;> simp only [cntCritical, cntStored, cntLooked, cnt_split, List.map_append, List.map_cons,
    List.append_nil, reduceCtorEq, if_false, if_true, Pc.decided.injEq, Pc.stored.injEq,
    Bool.true_eq_false, Bool.false_eq_true, add_zero, forall_true_left, false_implies,
    implies_true, true_implies] at h1 h3 h4 h5 h6 h7 h9 h10 h11
  · omega
  · rw [hda] at hdp ⊢
    by_cases hz : cnt Pc.done l + cnt Pc.done r = 0
    · -- nobody has stored yet: the address is absent
      have hnone := h5 (by omega)
      rw [decidePhase_absent g w a d hnone] at hdp
      injection hdp with e1 e2
      subst e1 e2
      refine ⟨?_, ?_, ?_, ?_, ?_, ?_, ?_, ?_, ?_, ?_, ?_⟩ <;> simp only [cntCritical, cntStored, cntLooked, cnt_split, List.map_append, List.map_cons,
    List.append_nil, reduceCtorEq, if_false, if_true, Pc.decided.injEq, Pc.stored.injEq,
    Bool.true_eq_false, Bool.false_eq_true, add_zero, forall_true_left, false_implies,
    implies_true, true_implies]
      · omega
      · exact h3
      · exact h4
      · intro _; exact hnone
      · intro hh; omega
      · exact h7
      · intro _; omega
      · intro hh; omega
      · rw [h11, hnone, if_pos (by omega), if_neg (by omega)]
        have e : cnt (Pc.decided true) l + 1 + cnt (Pc.decided true) r +
            (cnt (Pc.decided false) l + cnt (Pc.decided false) r) +
            (cnt (Pc.stored true) l + cnt (Pc.stored true) r +
              (cnt (Pc.stored false) l + cnt (Pc.stored false) r) +
              (cnt Pc.unlocking l + cnt Pc.unlocking r) +
              (cnt Pc.done l + cnt Pc.done r)) - 1 = 0 := by omega
        rw [e]
        rfl
    · -- somebody has stored: the address is present and within the window
      obtain ⟨v, hv, hsome⟩ := h6 (by omega)
      have hlt : d.Detected - v.Detected < Minute := h4 d (by simp) v hv
      obtain ⟨hdev, hins, hb⟩ := decidePhase_within g w a d v hsome hlt
      have hbf : b = false := hb w1 b hdp
      subst hbf
      rw [hdp] at hdev hins
      simp only [Outcome.world] at hdev hins
      refine ⟨?_, ?_, ?_, ?_, ?_, ?_, ?_, ?_, ?_, ?_, ?_⟩ <;> simp only [cntCritical, cntStored, cntLooked, cnt_split, List.map_append, List.map_cons,
    List.append_nil, reduceCtorEq, if_false, if_true, Pc.decided.injEq, Pc.stored.injEq,
    Bool.true_eq_false, Bool.false_eq_true, add_zero, forall_true_left, false_implies,
    implies_true, true_implies]
      · omega
      · exact h3
      · exact h4
      · intro hh; omega
      · intro _; rw [hdev]; exact ⟨v, hv, hsome⟩
      · rw [hins]; exact h7
      · intro hh; omega
      · intro _; omega
      · rw [h11, hsome, if_neg (by omega), if_neg (by omega)]
        exact replicate_log_step _ _ (by omega) (by omega)

theorem Inv_decide_crash (a : String) (base : Nat) (m : Bool) (w : World) (obs : List Bool)
    (l r : List Goroutine) (d : Device) (g : Driver)
    (h : Inv a base ⟨m, w, false, obs, l ++ ⟨d, g, Pc.locked⟩ :: r⟩)
    (hdp : (decidePhase g w d.Address d).isReturned = false) :
    Inv a base ⟨m, (decidePhase g w d.Address d).world, true, obs,
      l ++ ⟨d, g, Pc.locked⟩ :: r⟩ := by
  obtain ⟨h1, h2, h3, h4, h5, h6, h7, h8, h9, h10, h11⟩ := h
  have hda : d.Address = a := h3 d (by simp)
  cases m <;> simp only [cntCritical, cntStored, cntLooked, cnt_split, List.map_append, List.map_cons,
    List.append_nil, reduceCtorEq, if_false, if_true, Pc.decided.injEq, Pc.stored.injEq,
    Bool.true_eq_false, Bool.false_eq_true, add_zero, forall_true_left, false_implies,
    implies_true, true_implies] at h1 h3 h4 h5 h6 h7 h9 h10 h11
  · omega
  · rw [hda] at hdp ⊢
    by_cases hz : cnt Pc.done l + cnt Pc.done r = 0
    · have hnone := h5 (by omega)
      rw [decidePhase_absent g w a d hnone] at hdp
      simp [Outcome.isReturned] at hdp
    · obtain ⟨v, hv, hsome⟩ := h6 (by omega)
      have hlt : d.Detected - v.Detected < Minute := h4 d (by simp) v hv
      obtain ⟨hdev, hins, hb⟩ := decidePhase_within g w a d v hsome hlt
      refine ⟨?_, ?_, ?_, ?_, ?_, ?_, ?_, ?_, ?_, ?_, ?_⟩ <;> simp only [cntCritical, cntStored, cntLooked, cnt_split, List.map_append, List.map_cons,
    List.append_nil, reduceCtorEq, if_false, if_true, Pc.decided.injEq, Pc.stored.injEq,
    Bool.true_eq_false, Bool.false_eq_true, add_zero, forall_true_left, false_implies,
    implies_true, true_implies]
      · omega
      · exact h3
      · exact h4
      · rw [hins, h7, if_pos (by omega)]

theorem Inv_step (a : String) (base : Nat) (s : System) (i : Nat) (h : Inv a base s) :
    Inv a base (s.step i) := by
  obtain ⟨m, w, hlt, obs, ts⟩ := s
  unfold System.step
  cases hlt with
  | true => exact h
  | false =>
    simp only [Bool.false_eq_true, if_false]
    cases hget : ts[i]? with
    | none => exact h
    | some t =>
      obtain ⟨l, r, hts, hset⟩ := threads_split ts i t hget
      subst hts
      obtain ⟨d, g, pc⟩ := t
      simp only [hset]
      cases pc with
      | start =>
        cases m with
        | true => exact h
        | false =>
          simp only [stepGoroutine, Bool.false_eq_true, if_false, reduceCtorEq,
            List.append_nil]
          exact Inv_lock a base w obs l r d g h
      | locked =>
        simp only [stepGoroutine]
        cases hdp : decidePhase g w d.Address d with
        | returned w1 b =>
          simp only [if_true]
          exact Inv_decide a base m w w1 obs l r d g b h hdp
        | exited w1 c =>
          have hc := Inv_decide_crash a base m w obs l r d g h (by rw [hdp]; rfl)
          rw [hdp] at hc
          exact hc
        | panicked w1 =>
          have hc := Inv_decide_crash a base m w obs l r d g h (by rw [hdp]; rfl)
          rw [hdp] at hc
          exact hc
      | decided b =>
        simp only [stepGoroutine, reduceCtorEq, if_false, List.append_nil]
        exact Inv_store a base m w obs l r d g b h
      | stored b =>
        simp only [stepGoroutine]
        cases hi : insertPhase g w d.Address d b with
        | returned w1 u =>
          simp only [reduceCtorEq, if_false, List.append_nil]
          exact Inv_insert a base m w w1 obs l r d g b u h hi
        | exited w1 c =>
          have hc := Inv_insert_crash a base m w obs l r d g b h (by rw [hi]; rfl)
          rw [hi] at hc
          exact hc
        | panicked w1 =>
          have hc := Inv_insert_crash a base m w obs l r d g b h (by rw [hi]; rfl)
          rw [hi] at hc
          exact hc
      | unlocking =>
        simp only [stepGoroutine, reduceCtorEq, if_false, List.append_nil]
        exact Inv_unlock a base m w obs l r d g h
      | done => exact h

theorem Inv_run (a : String) (base : Nat) (schedule : List Nat) (s : System)
    (h : Inv a base s) : Inv a base (s.run schedule) := by
  induction schedule generalizing s with
  | nil => exact h
  | cons i rest ih => exact ih (s.step i) (Inv_step a base s i h)

theorem cnt_init (p : Pc) (hp : p ≠ Pc.start) (gds : List (Driver × Device)) :
    cnt p (gds.map fun q => ({ device := q.2, driver := q.1, pc := Pc.start } : Goroutine)) = 0 := by
  induction gds with
  | nil => rfl
  | cons q rest ih =>
    simp only [cnt, List.map_cons, List.countP_cons] at ih ⊢
    rw [ih]
    simp [Ne.symm hp]

theorem Inv_init (a : String) (w : World) (gds : List (Driver × Device))
    (habsent : mapLookup w.devices a = none)
    (haddr : ∀ p ∈ gds, p.2.Address = a)
    (hwin : ∀ p ∈ gds, ∀ q ∈ gds, p.2.Detected - q.2.Detected < Minute) :
    Inv a (inserts w.emitted).length (System.init w gds) := by
  have hmap : (System.init w gds).threads.map Goroutine.device = gds.map Prod.snd := by
    simp [System.init, List.map_map, Function.comp_def]
  have c0 : ∀ p, p ≠ Pc.start → cnt p (System.init w gds).threads = 0 :=
    fun p hp => cnt_init p hp gds
  have e1 := c0 Pc.locked (by simp)
  have e2 := c0 (Pc.decided true) (by simp)
  have e3 := c0 (Pc.decided false) (by simp)
  have e4 := c0 (Pc.stored true) (by simp)
  have e5 := c0 (Pc.stored false) (by simp)
  have e6 := c0 Pc.unlocking (by simp)
  have e7 := c0 Pc.done (by simp)
  refine ⟨?_, ?_, ?_, ?_, ?_, ?_, ?_, ?_, ?_, ?_, ?_⟩
  · simp only [cntCritical, e1, e2, e3, e4, e5, e6]; rfl
  · intro hh; simp [System.init] at hh
  · rw [hmap]
    intro d hd
    obtain ⟨p, hp, rfl⟩ := List.mem_map.mp hd
    exact haddr p hp
  · rw [hmap]
    intro d hd e he
    obtain ⟨p, hp, rfl⟩ := List.mem_map.mp hd
    obtain ⟨q, hq, rfl⟩ := List.mem_map.mp he
    exact hwin p hp q hq
  · intro _ _; exact habsent
  · intro _ hh
    simp only [cntStored, e4, e5, e6, e7] at hh
    omega
  · intro _
    simp only [e6, e7]
    rfl
  · intro hh; simp [System.init] at hh
  · intro _ hh
    simp only [e2, e4] at hh
    omega
  · intro _ hh
    simp only [e3, e5] at hh
    omega
  · intro _
    simp only [cntLooked, cntStored, e2, e3, e4, e5, e6, e7]
    rfl

theorem cnt_done_of_allDone (ts : List Goroutine)
    (h : (ts.all fun t => decide (t.pc = Pc.done)) = true) :
    cnt Pc.done ts = ts.length ∧ ∀ p, p ≠ Pc.done → cnt p ts = 0 := by
  induction ts with
  | nil => exact ⟨rfl, fun _ _ => rfl⟩
  | cons t rest ih =>
    simp only [List.all_cons, Bool.and_eq_true, decide_eq_true_eq] at h
    obtain ⟨ih1, ih2⟩ := ih h.2
    constructor
    · simp only [cnt, List.countP_cons, h.1, decide_True, if_true, List.length_cons] at ih1 ⊢
      omega
    · intro p hp
      have := ih2 p hp
      simp only [cnt, List.countP_cons, h.1] at this ⊢
      rw [this]
      simp [Ne.symm hp]

theorem step_length (s : System) (i : Nat) : (s.step i).threads.length = s.threads.length := by
  unfold System.step
  split
  · rfl
  · split
    · rfl
    · split <;> simp

theorem run_length (schedule : List Nat) (s : System) :
    (s.run schedule).threads.length = s.threads.length := by
  induction schedule generalizing s with
  | nil => rfl
  | cons i rest ih =>
    have := ih (s.step i)
    simp only [System.run, List.foldl_cons] at this ⊢
    rw [this, step_length]

/-! ## Concurrent calls: the sequential schedule completes -/

theorem decidePhase_healthy (g : Driver) (w : World) (a : String) (d : Device)
    (hp : g.prepare = Cause.nil) (he : g.exec = Cause.nil) :
    ∃ w1 b, decidePhase g w a d = Outcome.returned w1 b := by
  unfold decidePhase
  cases mapLookup w.devices a with
  | none => exact ⟨w, true, rfl⟩
  | some v =>
    simp only
    split_ifs
    · rw [updateData_healthy g w a d hp he]; exact ⟨_, false, rfl⟩
    · exact ⟨w, false, rfl⟩
    · exact ⟨w, true, rfl⟩

theorem insertPhase_healthy (g : Driver) (w : World) (a : String) (d : Device) (b : Bool)
    (hp : g.prepare = Cause.nil) (he : g.exec = Cause.nil) :
    ∃ w1, insertPhase g w a d b = Outcome.returned w1 () := by
  unfold insertPhase
  split_ifs
  · rw [handleData_healthy g w a d hp he]; exact ⟨_, rfl⟩
  · exact ⟨w, rfl⟩

theorem step_at_length (m : Bool) (w : World) (obs : List Bool) (l r : List Goroutine)
    (t : Goroutine) :
    System.step ⟨m, w, false, obs, l ++ t :: r⟩ l.length =
      match stepGoroutine m w t with
      | none => ⟨m, w, false, obs, l ++ t :: r⟩
      | some (m1, .returned w1 t1) =>
        ⟨m1, w1, false,
          obs ++ (if t.pc = Pc.locked then [(mapLookup w.devices t.device.Address).isSome]
            else []),
          l ++ t1 :: r⟩
      | some (_, .exited w1 _) => ⟨m, w1, true, obs, l ++ t :: r⟩
      | some (_, .panicked w1) => ⟨m, w1, true, obs, l ++ t :: r⟩ := by
  have hget : (l ++ t :: r)[l.length]? = some t := by
    rw [List.getElem?_append_right (le_refl _)]; simp
  have hset : ∀ t1, (l ++ t :: r).set l.length t1 = l ++ t1 :: r := by
    intro t1; simp
  simp only [System.step, Bool.false_eq_true, if_false, hget, hset]

theorem five_steps (w : World) (obs : List Bool) (l r : List Goroutine) (d : Device)
    (g : Driver) (hp : g.prepare = Cause.nil) (he : g.exec = Cause.nil) :
    ∃ w1 obs1, System.run ⟨false, w, false, obs, l ++ ⟨d, g, Pc.start⟩ :: r⟩
        (List.replicate 5 l.length) =
      ⟨false, w1, false, obs1, l ++ ⟨d, g, Pc.done⟩ :: r⟩ ∧
      ProcessSighting g w d = Outcome.returned w1 () := by
  obtain ⟨w1, b, hd⟩ := decidePhase_healthy g w d.Address d hp he
  obtain ⟨w2, hi⟩ := insertPhase_healthy g (storePhase w1 d.Address d) d.Address d b hp he
  refine ⟨w2, obs ++ [(mapLookup w.devices d.Address).isSome], ?_, ?_⟩
  swap
  · simp only [ProcessSighting, hd, hi]
  simp only [System.run, List.replicate, List.foldl_cons, List.foldl_nil]
  rw [step_at_length]
  simp only [stepGoroutine, Bool.false_eq_true, if_false, reduceCtorEq, List.append_nil]
  rw [step_at_length]
  simp only [stepGoroutine, hd, if_true]
  rw [step_at_length]
  simp only [stepGoroutine, reduceCtorEq, if_false, List.append_nil]
  rw [step_at_length]
  simp only [stepGoroutine, hi, reduceCtorEq, if_false, List.append_nil]
  rw [step_at_length]
  simp only [stepGoroutine, reduceCtorEq, if_false, List.append_nil]

theorem run_append (s : System) (xs ys : List Nat) :
    s.run (xs ++ ys) = (s.run xs).run ys := by
  simp [System.run, List.foldl_append]

theorem sequential_completes (r : List Goroutine) (l : List Goroutine) (w : World)
    (obs : List Bool)
    (hl : ∀ t ∈ l, t.pc = Pc.done)
    (hr : ∀ t ∈ r, t.pc = Pc.start ∧ t.driver.prepare = Cause.nil ∧ t.driver.exec = Cause.nil) :
    (System.run ⟨false, w, false, obs, l ++ r⟩
      ((List.range' l.length r.length).flatMap fun i => List.replicate 5 i)).allDone = true := by
  induction r generalizing l w obs with
  | nil =>
    simp only [List.length_nil, List.range'_zero, List.flatMap_nil, System.run, List.foldl_nil,
      System.allDone, List.append_nil, List.all_eq_true, decide_eq_true_eq]
    exact hl
  | cons t rest ih =>
    obtain ⟨d, g, pc⟩ := t
    obtain ⟨hpc, hp, he⟩ := hr ⟨d, g, pc⟩ (List.mem_cons_self _ _)
    simp only at hpc hp he
    subst hpc
    obtain ⟨w1, obs1, h5, _⟩ := five_steps w obs l rest d g hp he
    rw [List.length_cons, List.range'_succ, List.flatMap_cons, run_append, h5]
    have e : l ++ ({ device := d, driver := g, pc := Pc.done } : Goroutine) :: rest =
        (l ++ [⟨d, g, Pc.done⟩]) ++ rest := by simp
    have elen : l.length + 1 = (l ++ [({ device := d, driver := g, pc := Pc.done } : Goroutine)]).length := by
      simp
    rw [e, elen]
    apply ih
    · intro t ht
      rcases List.mem_append.mp ht with h1 | h1
      · exact hl t h1
      · simp only [List.mem_singleton] at h1
        rw [h1]
    · intro t ht
      exact hr t (List.mem_cons_of_mem _ ht)

theorem init_sequential_completes (w : World) (gds : List (Driver × Device))
    (hh : ∀ p ∈ gds, p.1.prepare = Cause.nil ∧ p.1.exec = Cause.nil) :
    ((System.init w gds).run (sequentialSchedule gds.length)).allDone = true := by
  have := sequential_completes
    (gds.map fun p => ({ device := p.2, driver := p.1, pc := Pc.start } : Goroutine)) [] w []
    (by simp)
    (by
      intro t ht
      obtain ⟨p, hp, rfl⟩ := List.mem_map.mp ht
      exact ⟨rfl, hh p hp⟩)
  simp only [List.nil_append, List.length_nil, List.length_map] at this
  simp only [System.init, sequentialSchedule, List.range_eq_range']
  exact this

/-! ## The claims -/

/-- C1: for every state and every driver behaviour, a sighting whose address
has no cache entry makes `ProcessSighting` emit exactly one command, the
Insert carrying the sighting's detected time, address, RSSI and name (so no
Update); the cache gains exactly one entry, the one for that address, which
holds the sighting, and every other entry is as before; with no database error
the call returns. -/
theorem first_sighting_inserts (g : Driver) (w : World) (d : Device)
    (h : mapLookup w.devices d.Address = none) :
    (ProcessSighting g w d).world.emitted =
        w.emitted ++ [Command.Insert d.Detected d.Address d.RSSI d.Name] ∧
      (ProcessSighting g w d).world.devices.length = w.devices.length + 1 ∧
      mapKeys (ProcessSighting g w d).world.devices = mapKeys w.devices ++ [d.Address] ∧
      mapLookup (ProcessSighting g w d).world.devices d.Address = some d ∧
      (∀ b, b ≠ d.Address →
        mapLookup (ProcessSighting g w d).world.devices b = mapLookup w.devices b) ∧
      (g.prepare = Cause.nil → g.exec = Cause.nil →
        (ProcessSighting g w d).isReturned = true) := by
  have hdev : (ProcessSighting g w d).world.devices = w.devices ++ [(d.Address, d)] := by
    rw [ProcessSighting_absent g w d h, handleData_devices]
    exact mapStore_of_lookup_none _ _ _ h
  refine ⟨?_, ?_, ?_, ?_, ?_, ?_⟩
  · rw [ProcessSighting_absent g w d h, handleData_emitted]; rfl
  · rw [hdev]; simp
  · rw [hdev]; simp [mapKeys]
  · rw [hdev, ← mapStore_of_lookup_none _ _ _ h]; exact mapLookup_mapStore_self _ _ _
  · intro b hb
    rw [hdev, ← mapStore_of_lookup_none _ _ _ h]; exact mapLookup_mapStore_ne _ _ _ _ hb
  · intro hp he
    exact ProcessSighting_healthy_returns g w d hp he

/-- Witness of C1: the first sighting of `AA:BB` in an empty cache. -/
theorem first_sighting_inserts_witness :
    mapLookup (World.mk [] [] []).devices (Device.mk 0 "AA:BB" 0 "Tag1" (-70)).Address = none ∧
      (ProcessSighting (Driver.healthy 1) (World.mk [] [] [])
          (Device.mk 0 "AA:BB" 0 "Tag1" (-70))).world.emitted =
        [Command.Insert 0 "AA:BB" (-70) "Tag1"] :=
  ⟨by decide,
    (first_sighting_inserts (Driver.healthy 1) (World.mk [] [] [])
      (Device.mk 0 "AA:BB" 0 "Tag1" (-70)) (by decide)).1⟩

/-- C2: when the cache holds an entry for the address last detected at `t0`
and the sighting's time `t1` has `t1 - t0` at least one minute (60 seconds
exactly included), `ProcessSighting` emits exactly one command, an Insert,
and no Update, whatever the sighting's name (empty or not). -/
theorem window_boundary_inserts (g : Driver) (w : World) (d v : Device)
    (h : mapLookup w.devices d.Address = some v)
    (ht : Minute ≤ d.Detected - v.Detected) :
    (ProcessSighting g w d).world.emitted =
      w.emitted ++ [Command.Insert d.Detected d.Address d.RSSI d.Name] := by
  rw [ProcessSighting_expired g w d v h ht, handleData_emitted]; rfl

/-- Witness of C2: a sighting with an empty name exactly 60 seconds after the
cached one. -/
theorem window_boundary_inserts_witness :
    mapLookup (World.mk [("AA:BB", Device.mk 0 "AA:BB" 30000000000 "" (-71))] [] []).devices
        (Device.mk 0 "AA:BB" 90000000000 "" (-72)).Address =
        some (Device.mk 0 "AA:BB" 30000000000 "" (-71)) ∧
      Minute ≤ (Device.mk 0 "AA:BB" 90000000000 "" (-72)).Detected -
        (Device.mk 0 "AA:BB" 30000000000 "" (-71)).Detected ∧
      (ProcessSighting (Driver.healthy 2)
          (World.mk [("AA:BB", Device.mk 0 "AA:BB" 30000000000 "" (-71))] [] [])
          (Device.mk 0 "AA:BB" 90000000000 "" (-72))).world.emitted =
        [] ++ [Command.Insert 90000000000 "AA:BB" (-72) ""] :=
  ⟨by decide, by decide,
    window_boundary_inserts (Driver.healthy 2)
      (World.mk [("AA:BB", Device.mk 0 "AA:BB" 30000000000 "" (-71))] [] [])
      (Device.mk 0 "AA:BB" 90000000000 "" (-72)) (Device.mk 0 "AA:BB" 30000000000 "" (-71))
      (by decide) (by decide)⟩

/-- C3: when the cache holds an entry for the address last detected at `t0`
(whatever its name, a non-empty one included) and the sighting has a non-empty
name and a time `t1` with `t1 - t0` under one minute, `ProcessSighting` emits
exactly one command, the Update keyed by the address and carrying the new
name, and no Insert; whenever the call returns, the cache entry of the address
is the sighting, so its detected time is `t1`; and the call returns when the
database reports no error. -/
theorem duplicate_with_name_updates (g : Driver) (w : World) (d v : Device)
    (h : mapLookup w.devices d.Address = some v)
    (ht : d.Detected - v.Detected < Minute) (hn : d.Name ≠ "") :
    (ProcessSighting g w d).world.emitted = w.emitted ++ [Command.Update d.Name d.Address] ∧
      inserts (ProcessSighting g w d).world.emitted = inserts w.emitted ∧
      (∀ w1 r, ProcessSighting g w d = Outcome.returned w1 r →
        ∃ e, mapLookup w1.devices d.Address = some e ∧ e = d ∧ e.Detected = d.Detected) ∧
      (g.prepare = Cause.nil → g.exec = Cause.nil →
        (ProcessSighting g w d).isReturned = true) := by
  refine ⟨ProcessSighting_named_emitted g w d v h ht hn,
    ProcessSighting_duplicate g w d v h ht, ?_, ?_⟩
  · intro w1 r hret
    refine ⟨d, ?_, rfl, rfl⟩
    rw [ProcessSighting_returned_devices g w w1 d r hret]
    exact mapLookup_mapStore_self _ _ _
  · intro hp he
    exact ProcessSighting_healthy_returns g w d hp he

/-- Witness of C3: a named sighting 30 seconds after a named cache entry. -/
theorem duplicate_with_name_updates_witness :
    mapLookup (World.mk [("AA:BB", Device.mk 0 "AA:BB" 0 "Tag1" (-70))] [] []).devices
        (Device.mk 0 "AA:BB" 30000000000 "Tag2" (-71)).Address =
        some (Device.mk 0 "AA:BB" 0 "Tag1" (-70)) ∧
      (Device.mk 0 "AA:BB" 30000000000 "Tag2" (-71)).Detected -
        (Device.mk 0 "AA:BB" 0 "Tag1" (-70)).Detected < Minute ∧
      (Device.mk 0 "AA:BB" 30000000000 "Tag2" (-71)).Name ≠ "" ∧
      (ProcessSighting (Driver.healthy 2)
          (World.mk [("AA:BB", Device.mk 0 "AA:BB" 0 "Tag1" (-70))] [] [])
          (Device.mk 0 "AA:BB" 30000000000 "Tag2" (-71))).world.emitted =
        [] ++ [Command.Update "Tag2" "AA:BB"] :=
  ⟨by decide, by decide, by decide,
    (duplicate_with_name_updates (Driver.healthy 2)
      (World.mk [("AA:BB", Device.mk 0 "AA:BB" 0 "Tag1" (-70))] [] [])
      (Device.mk 0 "AA:BB" 30000000000 "Tag2" (-71)) (Device.mk 0 "AA:BB" 0 "Tag1" (-70))
      (by decide) (by decide) (by decide)).1⟩

/-- C4: when the cache holds an entry for the address last detected at `t0`
and the sighting has an empty name and a time `t1` with `t1 - t0` under one
minute, `ProcessSighting` returns, whatever the database would do, having
emitted no command and left the table alone; afterwards the cache entry of the
address has detected time `t1` and the empty name. -/
theorem duplicate_without_name_silent (g : Driver) (w : World) (d v : Device)
    (h : mapLookup w.devices d.Address = some v)
    (ht : d.Detected - v.Detected < Minute) (hn : d.Name = "") :
    ∃ w1, ProcessSighting g w d = Outcome.returned w1 () ∧
      w1.emitted = w.emitted ∧ w1.beacon = w.beacon ∧
      ∃ e, mapLookup w1.devices d.Address = some e ∧
        e.Detected = d.Detected ∧ e.Name = "" := by
  refine ⟨storePhase w d.Address d, ProcessSighting_silent g w d v h ht hn, rfl, rfl, d, ?_,
    rfl, hn⟩
  exact mapLookup_mapStore_self _ _ _

/-- Witness of C4: a nameless sighting 30 seconds after a cache entry named
`Tag1`. -/
theorem duplicate_without_name_silent_witness :
    mapLookup (World.mk [("AA:BB", Device.mk 0 "AA:BB" 0 "Tag1" (-70))] [] []).devices
        (Device.mk 0 "AA:BB" 30000000000 "" (-71)).Address =
        some (Device.mk 0 "AA:BB" 0 "Tag1" (-70)) ∧
      (Device.mk 0 "AA:BB" 30000000000 "" (-71)).Detected -
        (Device.mk 0 "AA:BB" 0 "Tag1" (-70)).Detected < Minute ∧
      (Device.mk 0 "AA:BB" 30000000000 "" (-71)).Name = "" ∧
      ∃ w1, ProcessSighting (Driver.mk Cause.other Cause.other 0)
          (World.mk [("AA:BB", Device.mk 0 "AA:BB" 0 "Tag1" (-70))] [] [])
          (Device.mk 0 "AA:BB" 30000000000 "" (-71)) = Outcome.returned w1 () ∧
        w1.emitted = [] ∧ w1.beacon = [] ∧
        ∃ e, mapLookup w1.devices "AA:BB" = some e ∧
          e.Detected = 30000000000 ∧ e.Name = "" :=
  ⟨by decide, by decide, by decide,
    duplicate_without_name_silent (Driver.mk Cause.other Cause.other 0)
      (World.mk [("AA:BB", Device.mk 0 "AA:BB" 0 "Tag1" (-70))] [] [])
      (Device.mk 0 "AA:BB" 30000000000 "" (-71)) (Device.mk 0 "AA:BB" 0 "Tag1" (-70))
      (by decide) (by decide) (by decide)⟩

/-- C5: whenever `ProcessSighting` returns, in whichever branch, the cache
entry of the sighting's address is the record of that sighting; whenever a
sequence of calls returns, the entry of every address is the last sighting
processed for it (or the entry it had before, if the sequence has none); and
calls return when the database reports no error. -/
theorem cache_reflects_last_sighting (gds : List (Driver × Device)) (g : Driver) (w : World)
    (d : Device) (a : String) :
    (∀ w1 r, ProcessSighting g w d = Outcome.returned w1 r →
        mapLookup w1.devices d.Address = some d) ∧
      (∀ w1 r, processAll gds w = Outcome.returned w1 r →
        mapLookup w1.devices a =
          match lastSighting a (gds.map Prod.snd) with
          | some e => some e
          | none => mapLookup w.devices a) ∧
      (g.prepare = Cause.nil → g.exec = Cause.nil →
        (ProcessSighting g w d).isReturned = true) ∧
      ((∀ p ∈ gds, p.1.prepare = Cause.nil ∧ p.1.exec = Cause.nil) →
        (processAll gds w).isReturned = true) := by
  refine ⟨?_, ?_, ?_, ?_⟩
  · intro w1 r hret
    rw [ProcessSighting_returned_devices g w w1 d r hret]
    exact mapLookup_mapStore_self _ _ _
  · intro w1 r hret
    exact processAll_lookup gds w w1 r hret a
  · intro hp he
    exact ProcessSighting_healthy_returns g w d hp he
  · intro hall
    exact processAll_healthy_returns gds w hall

/-- Witness of C5: the scenario of three sightings of `AA:BB` at 0, 30 and 90
seconds; the run returns and the cache holds the third. -/
theorem cache_reflects_last_sighting_witness :
    ∃ w1, processAll
        [(Driver.healthy 1, Device.mk 0 "AA:BB" 0 "Tag1" (-70)),
          (Driver.healthy 2, Device.mk 0 "AA:BB" 30000000000 "" (-71)),
          (Driver.healthy 3, Device.mk 0 "AA:BB" 90000000000 "Tag1" (-72))]
        (World.mk [] [] []) = Outcome.returned w1 () ∧
      mapLookup w1.devices "AA:BB" = some (Device.mk 0 "AA:BB" 90000000000 "Tag1" (-72)) := by
  have hthm := cache_reflects_last_sighting
    [(Driver.healthy 1, Device.mk 0 "AA:BB" 0 "Tag1" (-70)),
      (Driver.healthy 2, Device.mk 0 "AA:BB" 30000000000 "" (-71)),
      (Driver.healthy 3, Device.mk 0 "AA:BB" 90000000000 "Tag1" (-72))]
    (Driver.healthy 1) (World.mk [] [] []) (Device.mk 0 "AA:BB" 0 "Tag1" (-70)) "AA:BB"
  obtain ⟨w1, hw1⟩ := returned_of_isReturned _ (hthm.2.2.2 (by decide))
  exact ⟨w1, hw1, hthm.2.1 w1 () hw1⟩

/-- C6 as stated fails: with an empty cache and a database whose `Exec` fails,
the first sighting of `AA:BB` ends the process with status 1 inside
`handleData`; the call does not return. -/
theorem persistence_failure_not_surfaced :
    ProcessSighting (Driver.mk Cause.nil Cause.other 1) (World.mk [] [] [])
        (Device.mk 0 "AA:BB" 0 "Tag1" (-70)) =
      Outcome.exited
        (World.mk [("AA:BB", Device.mk 0 "AA:BB" 0 "Tag1" (-70))] []
          [Command.Insert 0 "AA:BB" (-70) "Tag1"]) 1 ∧
      (ProcessSighting (Driver.mk Cause.nil Cause.other 1) (World.mk [] [] [])
        (Device.mk 0 "AA:BB" 0 "Tag1" (-70))).isTerminated = true := by
  constructor <;> rfl

/-- C6 amended: when the Insert or Update command that `ProcessSighting` emits
fails in `db.Prepare` or in `stmt.Exec` with an error whose cause is neither
`context.DeadlineExceeded` nor `context.Canceled`, `chkErr` ends the process
with exit status 1 and the call does not return. -/
theorem persistence_failure_exits (g : Driver) (w : World) (d : Device)
    (hfail : g.prepare = Cause.other ∨ (g.prepare = Cause.nil ∧ g.exec = Cause.other))
    (hemit : (ProcessSighting g w d).world.emitted ≠ w.emitted) :
    (∃ w1, ProcessSighting g w d = Outcome.exited w1 1) ∧
      (ProcessSighting g w d).isReturned = false := by
  have key : ∃ w1, ProcessSighting g w d = Outcome.exited w1 1 := by
    cases hl : mapLookup w.devices d.Address with
    | none =>
      rw [ProcessSighting_absent g w d hl]
      exact handleData_failing g _ _ _ hfail
    | some v =>
      by_cases ht : d.Detected - v.Detected < Minute
      · by_cases hn : d.Name = ""
        · exfalso
          apply hemit
          rw [ProcessSighting_silent g w d v hl ht hn]; rfl
        · rw [ProcessSighting_named g w d v hl ht hn]
          obtain ⟨w1, hw1⟩ := updateData_failing g w d.Address d hfail
          exact ⟨w1, by rw [hw1]⟩
      · rw [ProcessSighting_expired g w d v hl (not_lt.mp ht)]
        exact handleData_failing g _ _ _ hfail
  obtain ⟨w1, hw1⟩ := key
  exact ⟨⟨w1, hw1⟩, by rw [hw1]; rfl⟩

/-- Witness of C6 amended: a named duplicate whose Update fails in
`db.Prepare`. -/
theorem persistence_failure_exits_witness :
    ((Driver.mk Cause.other Cause.nil 0).prepare = Cause.other ∨
        ((Driver.mk Cause.other Cause.nil 0).prepare = Cause.nil ∧
          (Driver.mk Cause.other Cause.nil 0).exec = Cause.other)) ∧
      (ProcessSighting (Driver.mk Cause.other Cause.nil 0)
          (World.mk [("AA:BB", Device.mk 0 "AA:BB" 0 "Tag1" (-70))] [] [])
          (Device.mk 0 "AA:BB" 30000000000 "Tag2" (-71))).world.emitted ≠
        (World.mk [("AA:BB", Device.mk 0 "AA:BB" 0 "Tag1" (-70))] [] []).emitted ∧
      (ProcessSighting (Driver.mk Cause.other Cause.nil 0)
          (World.mk [("AA:BB", Device.mk 0 "AA:BB" 0 "Tag1" (-70))] [] [])
          (Device.mk 0 "AA:BB" 30000000000 "Tag2" (-71))).isReturned = false := by
  have hem := ProcessSighting_named_emitted (Driver.mk Cause.other Cause.nil 0)
    (World.mk [("AA:BB", Device.mk 0 "AA:BB" 0 "Tag1" (-70))] [] [])
    (Device.mk 0 "AA:BB" 30000000000 "Tag2" (-71)) (Device.mk 0 "AA:BB" 0 "Tag1" (-70))
    (by decide) (by decide) (by decide)
  have hne : (ProcessSighting (Driver.mk Cause.other Cause.nil 0)
      (World.mk [("AA:BB", Device.mk 0 "AA:BB" 0 "Tag1" (-70))] [] [])
      (Device.mk 0 "AA:BB" 30000000000 "Tag2" (-71))).world.emitted ≠
      (World.mk [("AA:BB", Device.mk 0 "AA:BB" 0 "Tag1" (-70))] [] []).emitted := by
    rw [hem]; decide
  exact ⟨by decide, hne,
    (persistence_failure_exits (Driver.mk Cause.other Cause.nil 0)
      (World.mk [("AA:BB", Device.mk 0 "AA:BB" 0 "Tag1" (-70))] [] [])
      (Device.mk 0 "AA:BB" 30000000000 "Tag2" (-71)) (by decide) hne).2⟩

/-- C8 as stated fails: with two rows for `AA:BB`, the older one named `Old`,
`updateData` renames both rows, the older one included. -/
theorem update_renames_older_row :
    (updateData (Driver.healthy 0)
        (World.mk []
          [Row.mk 1 0 "AA:BB" (-70) "Old", Row.mk 2 90000000000 "AA:BB" (-72) "Tag1"] [])
        "AA:BB" (Device.mk 0 "AA:BB" 100000000000 "New" (-71))).world.beacon =
      [Row.mk 1 0 "AA:BB" (-70) "New", Row.mk 2 90000000000 "AA:BB" (-72) "New"] := by
  rfl

/-- C8 amended: when the database reports no error, the Update run by
`updateData` returns and gives the new name to every row of table `beacon`
whose address matches, older rows included; a row with another address keeps
its name; no row is added, removed or moved, no field other than the name
changes, and the cache is untouched. -/
theorem update_renames_every_matching_row (g : Driver) (w : World) (a : String) (d : Device)
    (hp : g.prepare = Cause.nil) (he : g.exec = Cause.nil) :
    ∃ w1, updateData g w a d = Outcome.returned w1 () ∧
      w1.devices = w.devices ∧
      List.Forall₂
        (fun r r1 : Row =>
          r1.id = r.id ∧ r1.address = r.address ∧ r1.detected = r.detected ∧
            r1.rssi = r.rssi ∧ (r.address = d.Address → r1.name = d.Name) ∧
            (r.address ≠ d.Address → r1.name = r.name))
        w.beacon w1.beacon := by
  refine ⟨_, updateData_healthy g w a d hp he, rfl, ?_⟩
  simp only [sqlUpdate]
  generalize w.beacon = rows
  induction rows with
  | nil => exact List.Forall₂.nil
  | cons r rest ih =>
    rw [List.map_cons]
    refine List.Forall₂.cons ?_ ih
    by_cases hr : r.address = d.Address
    · simp [hr]
    · simp [hr]

/-- Witness of C8 amended: a table with rows of two addresses. -/
theorem update_renames_every_matching_row_witness :
    (Driver.healthy 0).prepare = Cause.nil ∧ (Driver.healthy 0).exec = Cause.nil ∧
      ∃ w1, updateData (Driver.healthy 0)
          (World.mk []
            [Row.mk 1 0 "AA:BB" (-70) "Old", Row.mk 2 5 "CC:DD" (-60) "Other"] [])
          "AA:BB" (Device.mk 0 "AA:BB" 30000000000 "New" (-71)) = Outcome.returned w1 () ∧
        w1.devices = [] ∧
        List.Forall₂
          (fun r r1 : Row =>
            r1.id = r.id ∧ r1.address = r.address ∧ r1.detected = r.detected ∧
              r1.rssi = r.rssi ∧ (r.address = "AA:BB" → r1.name = "New") ∧
              (r.address ≠ "AA:BB" → r1.name = r.name))
          [Row.mk 1 0 "AA:BB" (-70) "Old", Row.mk 2 5 "CC:DD" (-60) "Other"] w1.beacon :=
  ⟨rfl, rfl,
    update_renames_every_matching_row (Driver.healthy 0)
      (World.mk []
        [Row.mk 1 0 "AA:BB" (-70) "Old", Row.mk 2 5 "CC:DD" (-60) "Other"] [])
      "AA:BB" (Device.mk 0 "AA:BB" 30000000000 "New" (-71)) rfl rfl⟩

/-- C9: starting from an empty cache, a non-empty sequence of sightings of one
address, each less than one minute after the one before it, emits exactly one
Insert in total, the one of the first sighting, however long the sequence
spans and whatever the database does; with no database error the whole
sequence is processed. -/
theorem sliding_window_single_insert (g0 : Driver) (d0 : Device)
    (gds : List (Driver × Device)) (rows : List Row)
    (haddr : ∀ p ∈ gds, p.2.Address = d0.Address)
    (hchain : List.Chain (fun x y : Device => y.Detected - x.Detected < Minute) d0
      (gds.map Prod.snd)) :
    inserts (processAll ((g0, d0) :: gds) (World.mk [] rows [])).world.emitted =
        [Command.Insert d0.Detected d0.Address d0.RSSI d0.Name] ∧
      ((∀ p ∈ (g0, d0) :: gds, p.1.prepare = Cause.nil ∧ p.1.exec = Cause.nil) →
        (processAll ((g0, d0) :: gds) (World.mk [] rows [])).isReturned = true) := by
  refine ⟨?_, fun hall => processAll_healthy_returns _ _ hall⟩
  have hl : mapLookup (World.mk [] rows []).devices d0.Address = none := rfl
  have hfirst := first_step_emitted g0 rows d0
  cases hu : ProcessSighting g0 (World.mk [] rows []) d0 with
  | returned w1 r =>
    simp only [processAll, hu]
    rw [hu] at hfirst
    simp only [Outcome.world] at hfirst
    have hdev := ProcessSighting_returned_devices g0 _ w1 d0 r hu
    have hl1 : mapLookup w1.devices d0.Address = some d0 := by
      rw [hdev]; exact mapLookup_mapStore_self _ _ _
    rw [processAll_duplicates gds w1 d0.Address d0 hl1 haddr hchain, hfirst]
    simp [inserts, Command.isInsert]
  | exited w1 c =>
    simp only [processAll, hu]
    rw [hu] at hfirst
    simp only [Outcome.world] at hfirst ⊢
    rw [hfirst]; simp [inserts, Command.isInsert]
  | panicked w1 =>
    simp only [processAll, hu]
    rw [hu] at hfirst
    simp only [Outcome.world] at hfirst ⊢
    rw [hfirst]; simp [inserts, Command.isInsert]

/-- Witness of C9: sightings at 0, 59 and 118 seconds, a span of nearly two
minutes. -/
theorem sliding_window_single_insert_witness :
    (∀ p ∈ [(Driver.healthy 2, Device.mk 0 "AA:BB" 59000000000 "" (-71)),
          (Driver.healthy 3, Device.mk 0 "AA:BB" 118000000000 "Tag1" (-72))],
        p.2.Address = (Device.mk 0 "AA:BB" 0 "Tag1" (-70)).Address) ∧
      inserts (processAll
          [(Driver.healthy 1, Device.mk 0 "AA:BB" 0 "Tag1" (-70)),
            (Driver.healthy 2, Device.mk 0 "AA:BB" 59000000000 "" (-71)),
            (Driver.healthy 3, Device.mk 0 "AA:BB" 118000000000 "Tag1" (-72))]
          (World.mk [] [] [])).world.emitted =
        [Command.Insert 0 "AA:BB" (-70) "Tag1"] :=
  ⟨by decide,
    (sliding_window_single_insert (Driver.healthy 1) (Device.mk 0 "AA:BB" 0 "Tag1" (-70))
      [(Driver.healthy 2, Device.mk 0 "AA:BB" 59000000000 "" (-71)),
        (Driver.healthy 3, Device.mk 0 "AA:BB" 118000000000 "Tag1" (-72))] []
      (by decide)
      (List.Chain.cons (by decide) (List.Chain.cons (by decide) List.Chain.nil))).1⟩

/-- C10: `ProcessSighting` for address `a` removes no cache entry and leaves
the entry of every other address as it was, however the call ends. -/
theorem cache_entries_preserved (g : Driver) (w : World) (d : Device) (b : String) :
    ((mapLookup w.devices b).isSome = true →
        (mapLookup (ProcessSighting g w d).world.devices b).isSome = true) ∧
      (b ≠ d.Address →
        mapLookup (ProcessSighting g w d).world.devices b = mapLookup w.devices b) := by
  rcases ProcessSighting_devices g w d with h | h
  · rw [h]; exact ⟨id, fun _ => rfl⟩
  · rw [h]
    exact ⟨mapLookup_isSome_mapStore _ _ _ _, mapLookup_mapStore_ne _ _ _ _⟩

/-- Witness of C10: a sighting of `AA:BB` leaves the entry of `CC:DD` alone. -/
theorem cache_entries_preserved_witness :
    mapLookup (ProcessSighting (Driver.healthy 1)
        (World.mk [("CC:DD", Device.mk 0 "CC:DD" 5 "Other" (-60))] [] [])
        (Device.mk 0 "AA:BB" 0 "Tag1" (-70))).world.devices "CC:DD" =
      mapLookup (World.mk [("CC:DD", Device.mk 0 "CC:DD" 5 "Other" (-60))] [] []).devices
        "CC:DD" :=
  (cache_entries_preserved (Driver.healthy 1)
    (World.mk [("CC:DD", Device.mk 0 "CC:DD" 5 "Other" (-60))] [] [])
    (Device.mk 0 "AA:BB" 0 "Tag1" (-70)) "CC:DD").2 (by decide)

/-- C7: for `N >= 1` goroutines running `advHandler` for one address that has
no cache entry, their clock readings pairwise less than one minute apart, and
for every interleaving of their steps (the schedule): the number of Inserts
emitted never exceeds one; once all calls have finished exactly one Insert has
been emitted, and the lookups found the address absent once, first, and
present the `N - 1` other times; if a database error has ended the process,
exactly one Insert had been emitted; and when the database reports no error
the calls do finish, for instance when run one after the other. -/
theorem concurrent_first_sighting_single_insert (w : World) (a : String)
    (gds : List (Driver × Device)) (schedule : List Nat)
    (hn : 1 ≤ gds.length)
    (habsent : mapLookup w.devices a = none)
    (haddr : ∀ p ∈ gds, p.2.Address = a)
    (hwin : ∀ p ∈ gds, ∀ q ∈ gds, p.2.Detected - q.2.Detected < Minute) :
    (((System.init w gds).run schedule).allDone = true →
        (inserts ((System.init w gds).run schedule).world.emitted).length =
            (inserts w.emitted).length + 1 ∧
          ((System.init w gds).run schedule).observed =
            false :: List.replicate (gds.length - 1) true) ∧
      (inserts ((System.init w gds).run schedule).world.emitted).length ≤
        (inserts w.emitted).length + 1 ∧
      (((System.init w gds).run schedule).halted = true →
        (inserts ((System.init w gds).run schedule).world.emitted).length =
          (inserts w.emitted).length + 1) ∧
      ((∀ p ∈ gds, p.1.prepare = Cause.nil ∧ p.1.exec = Cause.nil) →
        ((System.init w gds).run (sequentialSchedule gds.length)).allDone = true) := by
  have hinv := Inv_run a (inserts w.emitted).length schedule (System.init w gds)
    (Inv_init a w gds habsent haddr hwin)
  have hlen : ((System.init w gds).run schedule).threads.length = gds.length := by
    rw [run_length]; simp [System.init]
  refine ⟨?_, ?_, hinv.insertsHalted, init_sequential_completes w gds⟩
  · intro hdone
    obtain ⟨hd, hz⟩ := cnt_done_of_allDone _ hdone
    rw [hlen] at hd
    have z1 := hz Pc.locked (by simp)
    have z2 := hz (Pc.decided true) (by simp)
    have z3 := hz (Pc.decided false) (by simp)
    have z4 := hz (Pc.stored true) (by simp)
    have z5 := hz (Pc.stored false) (by simp)
    have z6 := hz Pc.unlocking (by simp)
    have hcrit := hinv.critical
    simp only [cntCritical, z1, z2, z3, z4, z5, z6] at hcrit
    have hmutex : ((System.init w gds).run schedule).mutex = false := by
      cases hm : ((System.init w gds).run schedule).mutex with
      | false => rfl
      | true => rw [hm] at hcrit; simp at hcrit
    have hhalt : ((System.init w gds).run schedule).halted = false := by
      cases hh : ((System.init w gds).run schedule).halted with
      | false => rfl
      | true => have := hinv.haltedLocked hh; rw [hmutex] at this; simp at this
    constructor
    · rw [hinv.insertsRunning hhalt, z6, hd, if_pos (by omega)]
    · rw [hinv.observedLog hhalt]
      simp only [cntLooked, cntStored, z2, z3, z4, z5, z6, hd]
      rw [if_neg (by omega)]
      congr 2
      omega
  · cases hh : ((System.init w gds).run schedule).halted with
    | false =>
      rw [hinv.insertsRunning hh]
      split_ifs <;> omega
    | true => rw [hinv.insertsHalted hh]

/-- Witness of C7: two overlapping calls for `AA:BB`, five seconds apart. -/
theorem concurrent_first_sighting_single_insert_witness :
    mapLookup (World.mk [] [] []).devices "AA:BB" = none ∧
      (inserts ((System.init (World.mk [] [] [])
          [(Driver.healthy 1, Device.mk 0 "AA:BB" 0 "Tag1" (-70)),
            (Driver.healthy 2, Device.mk 0 "AA:BB" 5000000000 "Tag1" (-71))]).run
          (sequentialSchedule 2)).world.emitted).length = 0 + 1 ∧
      ((System.init (World.mk [] [] [])
          [(Driver.healthy 1, Device.mk 0 "AA:BB" 0 "Tag1" (-70)),
            (Driver.healthy 2, Device.mk 0 "AA:BB" 5000000000 "Tag1" (-71))]).run
          (sequentialSchedule 2)).observed = [false, true] := by
  have hthm := concurrent_first_sighting_single_insert (World.mk [] [] []) "AA:BB"
    [(Driver.healthy 1, Device.mk 0 "AA:BB" 0 "Tag1" (-70)),
      (Driver.healthy 2, Device.mk 0 "AA:BB" 5000000000 "Tag1" (-71))]
    (sequentialSchedule 2) (by decide) (by decide) (by decide) (by decide)
  exact ⟨by decide, hthm.1 (hthm.2.2.2 (by decide))⟩

end BleScanner
